import Mathlib

set_option maxRecDepth 100000
set_option maxHeartbeats 2000000

/-!
Verification of the circuit-synthesis engine of `sboxgates.c`.

The C program searches for low gate-count boolean circuits implementing a fixed
8-to-8 bit S-box.  This file gives a shallow embedding of its data model and
algorithms:

* 256-bit truth tables (`__m256i` in the source) are modelled as natural
  numbers; all table values produced by the program are below `2 ^ 256` and the
  bitwise operations `&&&`, `|||`, `^^^` on `Nat` agree with the 256-bit SIMD
  operations on that range.  The C bitwise complement `~` is modelled by XOR
  with the all-ones 256-bit mask (`ttNot`).
* The gate array of a `state` is modelled as a `List gate` holding exactly the
  first `num_gates` entries of the C array (entries beyond `num_gates` are
  never read by the program before being written).
* `NO_GATE` (`(uint64_t)-1`) becomes `Option.none`.
* C `assert` failures abort the process; they are modelled as `Except.error`
  values tagged with the assert that fired (`AKind`).  Out-of-fuel is a
  separate error tag; the C recursion is bounded because each level adds one
  used input bit and `assert(bitp < 6)` fires at depth six.
* Reads of `st->gates[g]` with `g` out of range (which C performs, and then
  discards after the `gid == NO_GATE` check or an assert in `add_gate`) are
  modelled by a default table value `0`; such a value never reaches a
  non-error, non-`none` result.
* The single point where the source has genuinely undefined behaviour -- the
  local `mux_out_or` is left uninitialized when `fd == NO_GATE` (line 397 of
  `sboxgates.c`) -- is modelled as `none`, the closure the specification
  prescribes.  This is flagged at the definition below.
-/

namespace Sboxgates

/-- Truth tables: 256-bit vectors, modelled as natural numbers below `2 ^ 256`.
Bit `i` is the value the represented boolean function takes on input `i`. -/
abbrev TT := Nat

/-- The all-ones 256-bit truth table (the C `mask` of four `-1` lanes). -/
def ttFull : TT := 2 ^ 256 - 1

/-- Bitwise complement of a 256-bit truth table (C `~` on `__m256i`). -/
def ttNot (a : TT) : TT := a ^^^ ttFull

/-- Masked equality test `ttable_equals_mask`: `(in1 ^ in2) & mask` is all zero. -/
def ttEqMask (a b m : TT) : Bool := ((a ^^^ b) &&& m) == 0

/-- Gate kinds (C `gate_type`). -/
inductive gate_type where
  | IN | NOT | AND | OR | XOR
deriving DecidableEq

/-- One gate of the circuit DAG (C `gate`).  `in1`/`in2` are gate indices,
`none` standing for `NO_GATE`. -/
structure gate where
  type : gate_type
  table : TT
  in1 : Option Nat
  in2 : Option Nat
deriving DecidableEq

instance : Inhabited gate := ⟨⟨gate_type.IN, 0, none, none⟩⟩

/-- The search state (C `state`).  The C fixed-size array `gates[MAX_GATES]`
together with `num_gates` is modelled by the list of its first `num_gates`
entries. -/
structure state where
  max_gates : Nat
  gates : List gate
  outputs : List (Option Nat)
deriving DecidableEq

/-- Number of gates currently in the state (C `st->num_gates`). -/
def num_gates (st : state) : Nat := st.gates.length

/-- Table of gate `i` (C `st->gates[i].table`); out-of-range reads, which the
program always discards, yield the default table `0`. -/
def gtable (st : state) (i : Nat) : TT := (st.gates.getD i default).table

/-- Table of an optional gate reference.  A C read `st->gates[NO_GATE].table`
is out of bounds; its (undefined) value is always discarded by the
`gid == NO_GATE` test in `add_gate`, so any default works here. -/
def tbl (st : state) (g : Option Nat) : TT :=
  match g with
  | none => 0
  | some i => gtable st i

/-- Tags for the ways a run can stop exceptionally: an `assert` in `add_gate`
(`AKind.add`), the `assert(bitp < 6)` before the Shannon split
(`AKind.inbits`), the masked-equality `assert` after multiplexer selection
(`AKind.mux`), and exhaustion of the fuel that bounds the modelled
recursion (`AKind.fuel`). -/
inductive AKind where
  | add | inbits | mux | fuel
deriving DecidableEq

/-- C `add_gate`.  Returns `none` (that is, `NO_GATE`) when a required input is
missing or the budget `max_gates` is exhausted; otherwise appends one gate and
returns its index.  The three C `assert`s become `Except.error AKind.add`. -/
def add_gate (st : state) (ty : gate_type) (tb : TT) (g1 g2 : Option Nat) :
    Except AKind (Option Nat × state) :=
  if g1 = none ∨ (g2 = none ∧ ty ≠ gate_type.NOT) then .ok (none, st)
  else if ¬ (ty ≠ gate_type.IN ∧ g1.getD 0 < num_gates st ∧
      (g2.getD 0 < num_gates st ∨ ty = gate_type.NOT)) then .error AKind.add
  else if st.max_gates ≤ num_gates st then .ok (none, st)
  else .ok (some (num_gates st), { st with gates := st.gates ++ [⟨ty, tb, g1, g2⟩] })

/-- Table computed by a binary gate kind. -/
def opApp : gate_type → TT → TT → TT
  | gate_type.AND, a, b => a &&& b
  | gate_type.OR, a, b => a ||| b
  | gate_type.XOR, a, b => a ^^^ b
  | _, a, _ => a

/-- Common shape of C `add_and_gate` / `add_or_gate` / `add_xor_gate`. -/
def add_bin (ty : gate_type) (st : state) (g1 g2 : Option Nat) :
    Except AKind (Option Nat × state) :=
  add_gate st ty (opApp ty (tbl st g1) (tbl st g2)) g1 g2

/-- C `add_not_gate`. -/
def add_not_gate (st : state) (g : Option Nat) : Except AKind (Option Nat × state) :=
  add_gate st gate_type.NOT (ttNot (tbl st g)) g none

/-- C `add_and_gate`. -/
def add_and_gate (st : state) (g1 g2 : Option Nat) : Except AKind (Option Nat × state) :=
  add_bin gate_type.AND st g1 g2

/-- C `add_or_gate`. -/
def add_or_gate (st : state) (g1 g2 : Option Nat) : Except AKind (Option Nat × state) :=
  add_bin gate_type.OR st g1 g2

/-- C `add_xor_gate`. -/
def add_xor_gate (st : state) (g1 g2 : Option Nat) : Except AKind (Option Nat × state) :=
  add_bin gate_type.XOR st g1 g2

/-- Common shape of C `add_nand_gate` / `add_nor_gate` / `add_xnor_gate`: a
binary gate followed by a NOT of its output. -/
def notAfter (ty : gate_type) (st : state) (g1 g2 : Option Nat) :
    Except AKind (Option Nat × state) :=
  match add_bin ty st g1 g2 with
  | .error e => .error e
  | .ok (r, s) => add_not_gate s r

/-- C `add_nand_gate`. -/
def add_nand_gate (st : state) (g1 g2 : Option Nat) : Except AKind (Option Nat × state) :=
  notAfter gate_type.AND st g1 g2

/-- C `add_nor_gate`. -/
def add_nor_gate (st : state) (g1 g2 : Option Nat) : Except AKind (Option Nat × state) :=
  notAfter gate_type.OR st g1 g2

/-- C `add_xnor_gate`. -/
def add_xnor_gate (st : state) (g1 g2 : Option Nat) : Except AKind (Option Nat × state) :=
  notAfter gate_type.XOR st g1 g2

/-- Common shape of C `add_or_not_gate` / `add_and_not_gate`: a NOT of the
first operand, fed into a binary gate with the second operand. -/
def binAfterNot (ty : gate_type) (st : state) (g1 g2 : Option Nat) :
    Except AKind (Option Nat × state) :=
  match add_not_gate st g1 with
  | .error e => .error e
  | .ok (r, s) => add_bin ty s r g2

/-- C `add_or_not_gate` (only the first operand is inverted). -/
def add_or_not_gate (st : state) (g1 g2 : Option Nat) : Except AKind (Option Nat × state) :=
  binAfterNot gate_type.OR st g1 g2

/-- C `add_and_not_gate` (only the first operand is inverted). -/
def add_and_not_gate (st : state) (g1 g2 : Option Nat) : Except AKind (Option Nat × state) :=
  binAfterNot gate_type.AND st g1 g2

/-- Common shape of the C three-input chains: the first operator applied to the
first two operands, the second operator applied to that result and the third
operand. -/
def chain2 (t1 t2 : gate_type) (st : state) (g1 g2 g3 : Option Nat) :
    Except AKind (Option Nat × state) :=
  match add_bin t1 st g1 g2 with
  | .error e => .error e
  | .ok (r, s) => add_bin t2 s r g3

/-- C `add_or_3_gate`. -/
def add_or_3_gate (st : state) (g1 g2 g3 : Option Nat) : Except AKind (Option Nat × state) :=
  chain2 gate_type.OR gate_type.OR st g1 g2 g3

/-- C `add_and_3_gate`. -/
def add_and_3_gate (st : state) (g1 g2 g3 : Option Nat) : Except AKind (Option Nat × state) :=
  chain2 gate_type.AND gate_type.AND st g1 g2 g3

/-- C `add_xor_3_gate`. -/
def add_xor_3_gate (st : state) (g1 g2 g3 : Option Nat) : Except AKind (Option Nat × state) :=
  chain2 gate_type.XOR gate_type.XOR st g1 g2 g3

/-- C `add_and_or_gate`. -/
def add_and_or_gate (st : state) (g1 g2 g3 : Option Nat) : Except AKind (Option Nat × state) :=
  chain2 gate_type.AND gate_type.OR st g1 g2 g3

/-- C `add_and_xor_gate`. -/
def add_and_xor_gate (st : state) (g1 g2 g3 : Option Nat) : Except AKind (Option Nat × state) :=
  chain2 gate_type.AND gate_type.XOR st g1 g2 g3

/-- C `add_xor_or_gate`. -/
def add_xor_or_gate (st : state) (g1 g2 g3 : Option Nat) : Except AKind (Option Nat × state) :=
  chain2 gate_type.XOR gate_type.OR st g1 g2 g3

/-- C `add_xor_and_gate`. -/
def add_xor_and_gate (st : state) (g1 g2 g3 : Option Nat) : Except AKind (Option Nat × state) :=
  chain2 gate_type.XOR gate_type.AND st g1 g2 g3

/-- C `add_or_and_gate`. -/
def add_or_and_gate (st : state) (g1 g2 g3 : Option Nat) : Except AKind (Option Nat × state) :=
  chain2 gate_type.OR gate_type.AND st g1 g2 g3

/-- C `add_or_xor_gate`. -/
def add_or_xor_gate (st : state) (g1 g2 g3 : Option Nat) : Except AKind (Option Nat × state) :=
  chain2 gate_type.OR gate_type.XOR st g1 g2 g3

/-- First `some` value of `f` over a list, in list order.  Models the
first-match-returns loops of `create_circuit`. -/
def firstSome {α β : Type} : List α → (α → Option β) → Option β
  | [], _ => none
  | a :: l, f =>
    match f a with
    | some b => some b
    | none => firstSome l f

/-- All pairs `(i, k)` with `i < k < n`, in the iteration order of the C
nested loops (outer `i` ascending, inner `k` ascending from `i + 1`). -/
def pairsL (n : Nat) : List (Nat × Nat) :=
  (List.range n).flatMap (fun i =>
    ((List.range n).filter (fun k => decide (i < k))).map (fun k => (i, k)))

/-- All triples `(i, k, m)` with `i < k < m < n`, in C iteration order. -/
def triplesL (n : Nat) : List (Nat × Nat × Nat) :=
  (pairsL n).flatMap (fun p =>
    ((List.range n).filter (fun m => decide (p.2 < m))).map (fun m => (p.1, p.2, m)))

/-- Phase 1 of `create_circuit`: first existing gate whose masked table equals
the target. -/
def phase1 (st : state) (target mask : TT) : Option Nat :=
  firstSome (List.range (num_gates st)) (fun i =>
    if ttEqMask target (gtable st i) mask then some i else none)

/-- Phase 2 of `create_circuit`: first existing gate whose complemented table
equals the target under the mask. -/
def phase2find (st : state) (target mask : TT) : Option Nat :=
  firstSome (List.range (num_gates st)) (fun i =>
    if ttEqMask target (ttNot (gtable st i)) mask then some i else none)

/-- The three phase-3 combination operators, in C check order. -/
inductive Op3 where
  | or2 | and2 | xor2
deriving DecidableEq

/-- Gate kind emitted for each phase-3 operator. -/
def op3ty : Op3 → gate_type
  | Op3.or2 => gate_type.OR
  | Op3.and2 => gate_type.AND
  | Op3.xor2 => gate_type.XOR

/-- Phase 3 of `create_circuit`: first pair `(i, k)` (lexicographic) whose
masked tables combine to the masked target by OR, AND or XOR (checked in that
order). -/
def phase3find (st : state) (target mask : TT) : Option (Nat × Nat × Op3) :=
  let mt := target &&& mask
  firstSome (pairsL (num_gates st)) (fun p =>
    let ti := gtable st p.1 &&& mask
    let tk := gtable st p.2 &&& mask
    if mt == ti ||| tk then some (p.1, p.2, Op3.or2)
    else if mt == ti &&& tk then some (p.1, p.2, Op3.and2)
    else if mt == ti ^^^ tk then some (p.1, p.2, Op3.xor2)
    else none)

/-- The seven phase-4 constructions, in C check order.  The `IK`/`KI` suffix
records the operand order passed to the asymmetric composers. -/
inductive Op4 where
  | nor | nand | xnor | ornotIK | ornotKI | andnotIK | andnotKI
deriving DecidableEq

/-- The truth table each phase-4 construction is checked against (and, by the
composer definitions, the table of the gate it emits). -/
def p4val (ti tk : TT) : Op4 → TT
  | Op4.nor => ttNot (ti ||| tk)
  | Op4.nand => ttNot (ti &&& tk)
  | Op4.xnor => ttNot (ti ^^^ tk)
  | Op4.ornotIK => ttNot ti ||| tk
  | Op4.ornotKI => ttNot tk ||| ti
  | Op4.andnotIK => ttNot ti &&& tk
  | Op4.andnotKI => ttNot tk &&& ti

/-- Phase 4 of `create_circuit`: first pair and inversion pattern (in C check
order) matching the target under the mask. -/
def phase4find (st : state) (target mask : TT) : Option (Nat × Nat × Op4) :=
  firstSome (pairsL (num_gates st)) (fun p =>
    let ti := gtable st p.1
    let tk := gtable st p.2
    if ttEqMask target (p4val ti tk Op4.nor) mask then some (p.1, p.2, Op4.nor)
    else if ttEqMask target (p4val ti tk Op4.nand) mask then some (p.1, p.2, Op4.nand)
    else if ttEqMask target (p4val ti tk Op4.xnor) mask then some (p.1, p.2, Op4.xnor)
    else if ttEqMask target (p4val ti tk Op4.ornotIK) mask then some (p.1, p.2, Op4.ornotIK)
    else if ttEqMask target (p4val ti tk Op4.ornotKI) mask then some (p.1, p.2, Op4.ornotKI)
    else if ttEqMask target (p4val ti tk Op4.andnotIK) mask then some (p.1, p.2, Op4.andnotIK)
    else if ttEqMask target (p4val ti tk Op4.andnotKI) mask then some (p.1, p.2, Op4.andnotKI)
    else none)

/-- Emit the gate(s) for a phase-4 match (C lines 244-264). -/
def applyOp4 (st : state) (o : Op4) (i k : Nat) : Except AKind (Option Nat × state) :=
  match o with
  | Op4.nor => add_nor_gate st (some i) (some k)
  | Op4.nand => add_nand_gate st (some i) (some k)
  | Op4.xnor => add_xnor_gate st (some i) (some k)
  | Op4.ornotIK => add_or_not_gate st (some i) (some k)
  | Op4.ornotKI => add_or_not_gate st (some k) (some i)
  | Op4.andnotIK => add_and_not_gate st (some i) (some k)
  | Op4.andnotKI => add_and_not_gate st (some k) (some i)

/-- The nine three-gate chain shapes of phase 5. -/
inductive Chain where
  | and3 | andOr | andXor | or3 | orAnd | orXor | xor3 | xorOr | xorAnd
deriving DecidableEq

/-- The two gate kinds of each chain shape: the first is applied to the first
two operands, the second to that result and the third operand. -/
def chainTys : Chain → gate_type × gate_type
  | Chain.and3 => (gate_type.AND, gate_type.AND)
  | Chain.andOr => (gate_type.AND, gate_type.OR)
  | Chain.andXor => (gate_type.AND, gate_type.XOR)
  | Chain.or3 => (gate_type.OR, gate_type.OR)
  | Chain.orAnd => (gate_type.OR, gate_type.AND)
  | Chain.orXor => (gate_type.OR, gate_type.XOR)
  | Chain.xor3 => (gate_type.XOR, gate_type.XOR)
  | Chain.xorOr => (gate_type.XOR, gate_type.OR)
  | Chain.xorAnd => (gate_type.XOR, gate_type.AND)

/-- The compositions phase 5 tests for one triple `i < k < m`, as pairs of an
operand triple and a chain shape, in exactly the check order of C lines
277-345 (nine with the `(i,k)` pair built first, then the `(i,m)`-first and
`(k,m)`-first variants). -/
def tripleCandidates (i k m : Nat) : List ((Nat × Nat × Nat) × Chain) :=
  [((i, k, m), Chain.and3), ((i, k, m), Chain.andOr), ((i, k, m), Chain.andXor),
   ((i, k, m), Chain.or3), ((i, k, m), Chain.orAnd), ((i, k, m), Chain.orXor),
   ((i, k, m), Chain.xor3), ((i, k, m), Chain.xorOr), ((i, k, m), Chain.xorAnd),
   ((i, m, k), Chain.andOr), ((i, m, k), Chain.andXor),
   ((k, m, i), Chain.andOr), ((k, m, i), Chain.andXor),
   ((i, m, k), Chain.xorOr), ((i, m, k), Chain.xorAnd),
   ((k, m, i), Chain.xorOr), ((k, m, i), Chain.xorAnd),
   ((i, m, k), Chain.orAnd), ((i, m, k), Chain.orXor),
   ((k, m, i), Chain.orAnd), ((k, m, i), Chain.orXor)]

/-- The masked table a phase-5 candidate is compared against. -/
def candVal (st : state) (mask : TT) (c : (Nat × Nat × Nat) × Chain) : TT :=
  opApp (chainTys c.2).2
    (opApp (chainTys c.2).1 (gtable st c.1.1 &&& mask) (gtable st c.1.2.1 &&& mask))
    (gtable st c.1.2.2 &&& mask)

/-- Phase 5 of `create_circuit`: first triple (lexicographic) and first of its
21 candidate compositions whose masked value equals the masked target. -/
def phase5find (st : state) (target mask : TT) : Option ((Nat × Nat × Nat) × Chain) :=
  let mt := target &&& mask
  firstSome (triplesL (num_gates st)) (fun t =>
    firstSome (tripleCandidates t.1 t.2.1 t.2.2) (fun c =>
      if mt == candVal st mask c then some c else none))

/-- Emit the chain for a phase-5 match. -/
def applyChain (st : state) (c : (Nat × Nat × Nat) × Chain) :
    Except AKind (Option Nat × state) :=
  match c.2 with
  | Chain.and3 => add_and_3_gate st (some c.1.1) (some c.1.2.1) (some c.1.2.2)
  | Chain.andOr => add_and_or_gate st (some c.1.1) (some c.1.2.1) (some c.1.2.2)
  | Chain.andXor => add_and_xor_gate st (some c.1.1) (some c.1.2.1) (some c.1.2.2)
  | Chain.or3 => add_or_3_gate st (some c.1.1) (some c.1.2.1) (some c.1.2.2)
  | Chain.orAnd => add_or_and_gate st (some c.1.1) (some c.1.2.1) (some c.1.2.2)
  | Chain.orXor => add_or_xor_gate st (some c.1.1) (some c.1.2.1) (some c.1.2.2)
  | Chain.xor3 => add_xor_3_gate st (some c.1.1) (some c.1.2.1) (some c.1.2.2)
  | Chain.xorOr => add_xor_or_gate st (some c.1.1) (some c.1.2.1) (some c.1.2.2)
  | Chain.xorAnd => add_xor_and_gate st (some c.1.1) (some c.1.2.1) (some c.1.2.2)

/-- The candidate accumulator of phase 6.  C declares `state best;` and only
initializes `best.num_gates = 0`; the other fields are never read before
`best` is first assigned, so their initial values here are immaterial. -/
def best0 : state := ⟨0, [], List.replicate 8 none⟩

/-- The multiplexer selection of C lines 410-416: the AND candidate is taken
when the OR candidate failed, or when both succeeded and the AND state is
strictly smaller; otherwise the OR candidate is taken. -/
def selectMux (muxAnd : Option Nat) (nstAnd : state) (muxOr : Option Nat) (nstOr : state) :
    Option Nat × state :=
  if muxOr = none ∨ (muxAnd ≠ none ∧ num_gates nstAnd < num_gates nstOr) then (muxAnd, nstAnd)
  else (muxOr, nstOr)

/-- The AND-multiplexer construction of phase 6 (C lines 385-393), starting
from the state `st₁` produced by the `fb` recursion: when `fb` failed the
multiplexer output is `NO_GATE`; otherwise recurse for `fc`, add an AND of
`fc` with the selection bit and an XOR of `fb` with that AND gate. -/
def andMux (rec : state → TT → TT → List (Fin 8) → Except AKind (Option Nat × state))
    (st₁ : state) (fb : Option Nat) (target mask fsel : TT) (nb : List (Fin 8)) (bitv : Nat) :
    Except AKind (Option Nat × state) :=
  match fb with
  | none => .ok (none, st₁)
  | some fbi =>
    match rec st₁ (gtable st₁ fbi ^^^ target) (mask &&& fsel) nb with
    | .error e => .error e
    | .ok (fc, st₂) =>
      match add_and_gate st₂ fc (some bitv) with
      | .error e => .error e
      | .ok (andg, st₃) => add_xor_gate st₃ (some fbi) andg

/-- The OR-multiplexer construction of phase 6 (C lines 395-403), starting
from the state `st₄` produced by the `fd` recursion.

The `fd = NO_GATE` case is the one place the source is undefined: it leaves
the local `mux_out_or` uninitialized and later reads it.  Following the
specification, which closes this latent bug, the model uses `none` there. -/
def orMux (rec : state → TT → TT → List (Fin 8) → Except AKind (Option Nat × state))
    (st₄ : state) (fd : Option Nat) (target mask fsel : TT) (nb : List (Fin 8)) (bitv : Nat) :
    Except AKind (Option Nat × state) :=
  match fd with
  | none => .ok (none, st₄)
  | some fdi =>
    match rec st₄ (gtable st₄ fdi ^^^ target) (mask &&& ttNot fsel) nb with
    | .error e => .error e
    | .ok (fe, st₅) =>
      match add_or_gate st₅ fe (some bitv) with
      | .error e => .error e
      | .ok (org, st₆) => add_xor_gate st₆ (some fdi) org

/-- One candidate split bit of phase 6 (C lines 368-421): build the AND
multiplexer and the OR multiplexer on independent copies of `st`, select
between them, check the selected gate against the target (the C `assert` at
line 417, modelled as `AKind.mux`), and update the running best candidate.
`rec` is the recursive call at the next depth. -/
def phase6body (rec : state → TT → TT → List (Fin 8) → Except AKind (Option Nat × state))
    (st : state) (target mask : TT) (used : List (Fin 8)) (bit : Fin 8) (best : state) :
    Except AKind state :=
  match rec st (target &&& ttNot (gtable st bit.val)) (mask &&& ttNot (gtable st bit.val))
      (used ++ [bit]) with
  | .error e => .error e
  | .ok (fb, st₁) =>
    match andMux rec st₁ fb target mask (gtable st bit.val) (used ++ [bit]) bit.val with
    | .error e => .error e
    | .ok (muxAnd, nstAnd) =>
      match rec st (ttNot target &&& gtable st bit.val) (mask &&& gtable st bit.val)
          (used ++ [bit]) with
      | .error e => .error e
      | .ok (fd, st₄) =>
        match orMux rec st₄ fd target mask (gtable st bit.val) (used ++ [bit]) bit.val with
        | .error e => .error e
        | .ok (muxOr, nstOr) =>
          if muxAnd = none ∧ muxOr = none then .ok best
          else
            match selectMux muxAnd nstAnd muxOr nstOr with
            | (mo, nst) =>
              if ttEqMask target (gtable nst (mo.getD 0)) mask then
                if num_gates best = 0 ∨ num_gates nst < num_gates best then .ok nst
                else .ok best
              else .error AKind.mux

/-- The phase-6 loop over candidate split bits 0..7, skipping bits already
used on this recursion path, threading the best candidate. -/
def phase6loop (rec : state → TT → TT → List (Fin 8) → Except AKind (Option Nat × state))
    (st : state) (target mask : TT) (used : List (Fin 8)) :
    List (Fin 8) → state → Except AKind state
  | [], best => .ok best
  | bit :: rest, best =>
    if bit ∈ used then phase6loop rec st target mask used rest best
    else
      match phase6body rec st target mask used bit best with
      | .error e => .error e
      | .ok best₁ => phase6loop rec st target mask used rest best₁

/-- The body of `create_circuit` (C lines 195-428), with the recursive call
abstracted as `rec`.  Phases 1-5 are tried in order; on the first match the
corresponding emission is the result (even when the emission itself yields
`NO_GATE`).  Otherwise the Shannon split of phase 6 runs: `bitp` is the
number of used bits, capped at 6 exactly as the C scan
`while (bitp < 6 && inbits[bitp] != -1)` caps it; `assert(bitp < 6)` becomes
`AKind.inbits`; at the end, `best.num_gates == 0` means no candidate
succeeded and `NO_GATE` is returned with the state untouched, otherwise the
state is replaced by the best candidate and the index of its last gate is
returned. -/
def ccBody (rec : state → TT → TT → List (Fin 8) → Except AKind (Option Nat × state))
    (st : state) (target mask : TT) (inbits : List (Fin 8)) :
    Except AKind (Option Nat × state) :=
  match phase1 st target mask with
  | some i => .ok (some i, st)
  | none =>
  match phase2find st target mask with
  | some i => add_not_gate st (some i)
  | none =>
  match phase3find st target mask with
  | some (i, k, o) => add_bin (op3ty o) st (some i) (some k)
  | none =>
  match phase4find st target mask with
  | some (i, k, o) => applyOp4 st o i k
  | none =>
  match phase5find st target mask with
  | some c => applyChain st c
  | none =>
  if 6 ≤ min inbits.length 6 then .error AKind.inbits
  else
    match phase6loop rec st target mask (inbits.take (min inbits.length 6))
        (List.finRange 8) best0 with
    | .error e => .error e
    | .ok best =>
      if num_gates best = 0 then .ok (none, st)
      else .ok (some (num_gates best - 1), best)

/-- C `create_circuit`, with a fuel parameter bounding the recursion depth.
Any fuel of at least 7 is enough for every call the program makes, because
each recursion level appends one used bit and depth six stops (with the
`bitp` assert) before recursing further. -/
def create_circuit : Nat → state → TT → TT → List (Fin 8) →
    Except AKind (Option Nat × state)
  | 0, _, _, _, _ => .error AKind.fuel
  | fuel + 1, st, target, mask, inbits =>
    ccBody (fun s t m b => create_circuit fuel s t m b) st target mask inbits

/-- The S-box under synthesis (C `g_sbox_enc`). -/
def g_sbox_enc : List Nat :=
  [0x9c, 0xf2, 0x14, 0xc1, 0x8e, 0xcb, 0xb2, 0x65, 0x97, 0x7a, 0x60, 0x17, 0x92, 0xf9, 0x78, 0x41,
   0x07, 0x4c, 0x67, 0x6d, 0x66, 0x4a, 0x30, 0x7d, 0x53, 0x9d, 0xb5, 0xbc, 0xc3, 0xca, 0xf1, 0x04,
   0x03, 0xec, 0xd0, 0x38, 0xb0, 0xed, 0xad, 0xc4, 0xdd, 0x56, 0x42, 0xbd, 0xa0, 0xde, 0x1b, 0x81,
   0x55, 0x44, 0x5a, 0xe4, 0x50, 0xdc, 0x43, 0x63, 0x09, 0x5c, 0x74, 0xcf, 0x0e, 0xab, 0x1d, 0x3d,
   0x6b, 0x02, 0x5d, 0x28, 0xe7, 0xc6, 0xee, 0xb4, 0xd9, 0x7c, 0x19, 0x3e, 0x5e, 0x6c, 0xd6, 0x6e,
   0x2a, 0x13, 0xa5, 0x08, 0xb9, 0x2d, 0xbb, 0xa2, 0xd4, 0x96, 0x39, 0xe0, 0xba, 0xd7, 0x82, 0x33,
   0x0d, 0x5f, 0x26, 0x16, 0xfe, 0x22, 0xaf, 0x00, 0x11, 0xc8, 0x9e, 0x88, 0x8b, 0xa1, 0x7b, 0x87,
   0x27, 0xe6, 0xc7, 0x94, 0xd1, 0x5b, 0x9b, 0xf0, 0x9f, 0xdb, 0xe1, 0x8d, 0xd2, 0x1f, 0x6a, 0x90,
   0xf4, 0x18, 0x91, 0x59, 0x01, 0xb1, 0xfc, 0x34, 0x3c, 0x37, 0x47, 0x29, 0xe2, 0x64, 0x69, 0x24,
   0x0a, 0x2f, 0x73, 0x71, 0xa9, 0x84, 0x8c, 0xa8, 0xa3, 0x3b, 0xe3, 0xe9, 0x58, 0x80, 0xa7, 0xd3,
   0xb7, 0xc2, 0x1c, 0x95, 0x1e, 0x4d, 0x4f, 0x4e, 0xfb, 0x76, 0xfd, 0x99, 0xc5, 0xc9, 0xe8, 0x2e,
   0x8a, 0xdf, 0xf5, 0x49, 0xf3, 0x6f, 0x8f, 0xe5, 0xeb, 0xf6, 0x25, 0xd5, 0x31, 0xc0, 0x57, 0x72,
   0xaa, 0x46, 0x68, 0x0b, 0x93, 0x89, 0x83, 0x70, 0xef, 0xa4, 0x85, 0xf8, 0x0f, 0xb3, 0xac, 0x10,
   0x62, 0xcc, 0x61, 0x40, 0xf7, 0xfa, 0x52, 0x7f, 0xff, 0x32, 0x45, 0x20, 0x79, 0xce, 0xea, 0xbe,
   0xcd, 0x15, 0x21, 0x23, 0xd8, 0xb6, 0x0c, 0x3f, 0x54, 0x1a, 0xbf, 0x98, 0x48, 0x3a, 0x75, 0x77,
   0x2b, 0xae, 0x36, 0xda, 0x7e, 0x86, 0x35, 0x51, 0x05, 0x12, 0xb8, 0xa6, 0x9a, 0x2c, 0x06, 0x4b]

/-- One 64-bit lane of `generate_target`: the C loop shifts the lane right by
one and ORs the next bit in at position 63, so after its 64 steps the lane
holds bits `64*j .. 64*j+63`. -/
def gtLane (bit : Nat) (sbox : Bool) (j : Nat) : Nat :=
  (List.range 64).foldl (fun var t =>
    (var >>> 1) |||
      ((((if sbox then g_sbox_enc.getD (64 * j + t) 0 else 64 * j + t) >>> bit) &&& 1) <<< 63)) 0

/-- C `generate_target`: the truth table of output bit `bit` of the S-box
(`sbox = true`) or of input variable `bit` (`sbox = false`), assembled from
the four 64-bit lanes exactly as the C pointer-walking loop does. -/
def generate_target (bit : Nat) (sbox : Bool) : TT :=
  gtLane bit sbox 0 + (gtLane bit sbox 1 <<< 64) + (gtLane bit sbox 2 <<< 128) +
    (gtLane bit sbox 3 <<< 192)

/-- The truth tables of the eight S-box output bits (C `g_target`). -/
def g_target (o : Nat) : TT := generate_target o true

/-- The state built by `main` when run with no arguments: `max_gates`
`MAX_GATES = 500`, the eight input gates with their variable truth tables,
all outputs `NO_GATE`. -/
def initial_state : state :=
  { max_gates := 500,
    gates := (List.range 8).map (fun i => ⟨gate_type.IN, generate_target i false, none, none⟩),
    outputs := List.replicate 8 none }

/-- One iteration of the driver loop of `main` (C lines 567-603), for output
`o` with target table `tgt` (in the program, `g_target[o]`), returning the
`default_state` the next iteration starts from.  The synthesis runs on a
local copy `st` of `default_state`; on success the copy (with `outputs[o]`
set) is saved to a file, and only `max_gates` of `default_state` is updated
(when the achieved count is strictly smaller).  File output is external and
not modelled; an aborted synthesis means the program dies, so the error case
is a dummy here. -/
def driver_step (fuel : Nat) (tgt : TT) (ds : state) (o : Nat) : state :=
  if (ds.outputs.getD o none).isSome then ds
  else
    match create_circuit fuel ds tgt ttFull [] with
    | .error _ => ds
    | .ok (r, st₁) =>
      match r with
      | none => ds
      | some _ =>
        if num_gates { st₁ with outputs := st₁.outputs.set o r } < ds.max_gates then
          { ds with max_gates := num_gates { st₁ with outputs := st₁.outputs.set o r } }
        else ds

/-- The full driver loop over the eight output bits. -/
def driver_loop (fuel : Nat) (ds : state) : state :=
  (List.range 8).foldl (fun s o => driver_step fuel (g_target o) s o) ds

/-- List extension: `g₂` is `g₁` with zero or more gates appended.  This is
the shape every state mutation of the synthesizer has. -/
def Extends (g₁ g₂ : List gate) : Prop := ∃ t, g₂ = g₁ ++ t

/-- Correctness property of one `create_circuit` result (the content of claim
C1): every returned index denotes a gate whose masked table equals the
target; an index of a pre-existing gate is returned with the state unchanged,
a fresh index is the last gate of the extended state; and the masked-equality
assert after multiplexer selection (C line 417) never fires. -/
def Good (st : state) (target mask : TT) : Except AKind (Option Nat × state) → Prop
  | .error e => e ≠ AKind.mux
  | .ok (r, st₁) =>
    Extends st.gates st₁.gates ∧
    ∀ j, r = some j →
      j < num_gates st₁ ∧ ttEqMask target (gtable st₁ j) mask = true ∧
      (j < num_gates st → st₁ = st) ∧
      (num_gates st ≤ j → j + 1 = num_gates st₁)

/-- Candidate invariant for the phase-6 accumulator: a real candidate extends
the calling state, is strictly larger, and its last gate matches the target
under the mask. -/
def Cand (st : state) (target mask : TT) (b : state) : Prop :=
  Extends st.gates b.gates ∧ num_gates st < num_gates b ∧
    ttEqMask target (gtable b (num_gates b - 1)) mask = true

/-- Invariant carried by the phase-6 loop: either no candidate has been found
yet (`best0`) or the accumulator is a genuine candidate; an exceptional stop
is never the multiplexer-equality assert. -/
def LoopInv (st : state) (target mask : TT) : Except AKind state → Prop
  | .error e => e ≠ AKind.mux
  | .ok b => b = best0 ∨ Cand st target mask b

/-- Specification of one multiplexer construction relative to the state it
starts from: it extends that state, and a returned output gate is the last
gate of a strictly larger state and matches the target under the mask. -/
def MuxRes (stBase : state) (target mask : TT) : Except AKind (Option Nat × state) → Prop
  | .error e => e ≠ AKind.mux
  | .ok (r, nst) =>
    Extends stBase.gates nst.gates ∧ ∀ j, r = some j →
      num_gates stBase < num_gates nst ∧ j + 1 = num_gates nst ∧
      ttEqMask target (gtable nst j) mask = true

/-- The binary gate kinds. -/
def isBin (ty : gate_type) : Prop :=
  ty = gate_type.AND ∨ ty = gate_type.OR ∨ ty = gate_type.XOR

/-- Tests whether a synthesis result is a normal `NO_GATE` return (as opposed
to a returned gate index or an abort). -/
def isNoneResult : Except AKind (Option Nat × state) → Bool
  | .ok (none, _) => true
  | _ => false

/-- Concrete two-gate state used to exercise the reuse phase: two input-kind
gates with (tiny) distinct tables. -/
def stPair : state :=
  ⟨10, [⟨gate_type.IN, 1, none, none⟩, ⟨gate_type.IN, 2, none, none⟩], List.replicate 8 none⟩

/-- Concrete one-gate state whose budget is already full
(`max_gates = num_gates = 1`). -/
def stOne : state := ⟨1, [⟨gate_type.IN, 1, none, none⟩], List.replicate 8 none⟩

/-- Concrete target used against `initial_state`: the complement of input
variable 0, which phase 2 synthesizes with a single NOT gate. -/
def c2tgt : TT := ttNot (gtable initial_state 0)

/-- The state produced by synthesizing `c2tgt` from `initial_state` (nine
gates: the eight inputs plus one NOT). -/
def c2syn : state :=
  match create_circuit 1 initial_state c2tgt ttFull [] with
  | .ok (_, s) => s
  | .error _ => initial_state

/-- Concrete one-gate states with equal gate counts but different tables, to
exhibit the phase-6 tie-breaking. -/
def stTieA : state := ⟨5, [⟨gate_type.IN, 1, none, none⟩], List.replicate 8 none⟩

/-- Companion of `stTieA` with a different gate table. -/
def stTieB : state := ⟨5, [⟨gate_type.IN, 2, none, none⟩], List.replicate 8 none⟩

end Sboxgates

deriving instance DecidableEq for Except

namespace Sboxgates

/-! ### List extension lemmas -/

theorem ext_refl (g : List gate) : Extends g g := ⟨[], (List.append_nil g).symm⟩

theorem ext_trans {a b c : List gate} (h₁ : Extends a b) (h₂ : Extends b c) : Extends a c := by
  obtain ⟨t₁, rfl⟩ := h₁
  obtain ⟨t₂, rfl⟩ := h₂
  exact ⟨t₁ ++ t₂, List.append_assoc a t₁ t₂⟩

theorem ext_snoc (g : List gate) (x : gate) : Extends g (g ++ [x]) := ⟨[x], rfl⟩

theorem ext_length {a b : List gate} (h : Extends a b) : a.length ≤ b.length := by
  obtain ⟨t, rfl⟩ := h
  simp

theorem getD_append_lt {α : Type} (l t : List α) (i : Nat) (d : α) (h : i < l.length) :
    (l ++ t).getD i d = l.getD i d := by
  induction l generalizing i with
  | nil => simp at h
  | cons a l ih =>
    cases i with
    | zero => rfl
    | succ i => simpa using ih i (by simpa using h)

theorem getD_snoc_self {α : Type} (l : List α) (x : α) (d : α) :
    (l ++ [x]).getD l.length d = x := by
  induction l with
  | nil => rfl
  | cons a l ih => simp [ih]

theorem num_le_of_ext {st st₁ : state} (h : Extends st.gates st₁.gates) :
    num_gates st ≤ num_gates st₁ := ext_length h

theorem gtable_ext {st st₁ : state} (h : Extends st.gates st₁.gates) {i : Nat}
    (hi : i < num_gates st) : gtable st₁ i = gtable st i := by
  obtain ⟨t, ht⟩ := h
  simp only [gtable, ht]
  rw [getD_append_lt _ _ _ _ hi]

/-! ### Truth-table lemmas -/

theorem ttEqMask_iff {a b m : TT} :
    ttEqMask a b m = true ↔ ∀ i, m.testBit i = true → a.testBit i = b.testBit i := by
  unfold ttEqMask
  rw [beq_iff_eq]
  constructor
  · intro h i hm
    have h2 : ((a ^^^ b) &&& m).testBit i = Nat.testBit 0 i := by rw [h]
    rw [Nat.testBit_and, Nat.testBit_xor, Nat.zero_testBit, hm, Bool.and_true] at h2
    cases ha : a.testBit i <;> cases hb : b.testBit i <;> simp_all
  · intro h
    apply Nat.eq_of_testBit_eq
    intro i
    rw [Nat.testBit_and, Nat.testBit_xor, Nat.zero_testBit]
    cases hm : m.testBit i
    · simp
    · simp [h i hm]

theorem eqMask_of_masked {target w m : TT} (h : target &&& m = w &&& m) :
    ttEqMask target w m = true := by
  rw [ttEqMask_iff]
  intro i hm
  have h2 : (target &&& m).testBit i = (w &&& m).testBit i := by rw [h]
  simpa [Nat.testBit_and, hm] using h2

theorem testBit_ttNot {a : TT} {i : Nat} (h : i < 256) :
    (ttNot a).testBit i = ! a.testBit i := by
  unfold ttNot ttFull
  rw [Nat.testBit_xor, Nat.testBit_two_pow_sub_one]
  simp [h]

theorem maskBit_lt {m : TT} (hm : m < 2 ^ 256) {i : Nat} (h : m.testBit i = true) : i < 256 := by
  by_contra hi
  have : m < 2 ^ i := lt_of_lt_of_le hm (Nat.pow_le_pow_right (by norm_num) (by omega))
  rw [Nat.testBit_eq_false_of_lt this] at h
  exact Bool.false_ne_true h

theorem opApp_testBit {ty : gate_type} (h : isBin ty) (a b : TT) (i : Nat) :
    (opApp ty a b).testBit i =
      match ty with
      | gate_type.AND => a.testBit i && b.testBit i
      | gate_type.OR => a.testBit i || b.testBit i
      | _ => a.testBit i ^^ b.testBit i := by
  rcases h with rfl | rfl | rfl <;>
    simp [opApp, Nat.testBit_and, Nat.testBit_or, Nat.testBit_xor]

theorem opApp_mask {ty : gate_type} (h : isBin ty) (a b m : TT) :
    opApp ty (a &&& m) (b &&& m) = opApp ty a b &&& m := by
  apply Nat.eq_of_testBit_eq
  intro i
  rcases h with rfl | rfl | rfl <;>
    simp only [opApp, Nat.testBit_and, Nat.testBit_or, Nat.testBit_xor] <;>
    cases a.testBit i <;> cases b.testBit i <;> cases m.testBit i <;> rfl

theorem mux_and_eq {target mask fsel fbT fcT : TT} (hm : mask < 2 ^ 256)
    (hfb : ttEqMask (target &&& ttNot fsel) fbT (mask &&& ttNot fsel) = true)
    (hfc : ttEqMask (fbT ^^^ target) fcT (mask &&& fsel) = true) :
    ttEqMask target (fbT ^^^ (fcT &&& fsel)) mask = true := by
  rw [ttEqMask_iff] at *
  intro i hmi
  have hi : i < 256 := maskBit_lt hm hmi
  cases hs : fsel.testBit i with
  | true =>
    have hc := hfc i (by rw [Nat.testBit_and, hmi, hs]; rfl)
    rw [Nat.testBit_xor] at hc
    rw [Nat.testBit_xor, Nat.testBit_and, hs, Bool.and_true, ← hc]
    cases fbT.testBit i <;> cases target.testBit i <;> rfl
  | false =>
    have hb := hfb i (by rw [Nat.testBit_and, hmi, testBit_ttNot hi, hs]; rfl)
    rw [Nat.testBit_and, testBit_ttNot hi, hs] at hb
    rw [Nat.testBit_xor, Nat.testBit_and, hs, Bool.and_false, Bool.xor_false, ← hb]
    cases target.testBit i <;> rfl

theorem mux_or_eq {target mask fsel fdT feT : TT} (hm : mask < 2 ^ 256)
    (hfd : ttEqMask (ttNot target &&& fsel) fdT (mask &&& fsel) = true)
    (hfe : ttEqMask (fdT ^^^ target) feT (mask &&& ttNot fsel) = true) :
    ttEqMask target (fdT ^^^ (feT ||| fsel)) mask = true := by
  rw [ttEqMask_iff] at *
  intro i hmi
  have hi : i < 256 := maskBit_lt hm hmi
  cases hs : fsel.testBit i with
  | true =>
    have hd := hfd i (by rw [Nat.testBit_and, hmi, hs]; rfl)
    rw [Nat.testBit_and, testBit_ttNot hi, hs, Bool.and_true] at hd
    rw [Nat.testBit_xor, Nat.testBit_or, hs, Bool.or_true, Bool.xor_true, ← hd, Bool.not_not]
  | false =>
    have he := hfe i (by rw [Nat.testBit_and, hmi, testBit_ttNot hi, hs]; rfl)
    rw [Nat.testBit_xor] at he
    rw [Nat.testBit_xor, Nat.testBit_or, hs, Bool.or_false, ← he]
    cases fdT.testBit i <;> cases target.testBit i <;> rfl

/-! ### Lemmas on `add_gate` and the composers -/

theorem add_gate_error {st : state} {ty : gate_type} {tb : TT} {g1 g2 : Option Nat} {e : AKind}
    (h : add_gate st ty tb g1 g2 = .error e) : e = AKind.add := by
  unfold add_gate at h
  split at h
  · simp at h
  · split at h
    · simp only [Except.error.injEq] at h
      exact h.symm
    · split at h <;> simp at h

theorem add_gate_ok {st : state} {ty : gate_type} {tb : TT} {g1 g2 : Option Nat}
    {r : Option Nat} {st₁ : state} (h : add_gate st ty tb g1 g2 = .ok (r, st₁)) :
    (r = none ∧ st₁ = st) ∨
    ((∃ a, g1 = some a ∧ a < num_gates st) ∧ r = some (num_gates st) ∧
      num_gates st < st.max_gates ∧
      st₁ = { st with gates := st.gates ++ [⟨ty, tb, g1, g2⟩] }) := by
  unfold add_gate at h
  split at h
  · simp only [Except.ok.injEq, Prod.mk.injEq] at h
    exact Or.inl ⟨h.1.symm, h.2.symm⟩
  · rename_i h1
    split at h
    · simp at h
    · rename_i h2
      rw [not_not] at h2
      obtain ⟨hty, hlt, hor⟩ := h2
      split at h
      · simp only [Except.ok.injEq, Prod.mk.injEq] at h
        exact Or.inl ⟨h.1.symm, h.2.symm⟩
      · rename_i h3
        simp only [Except.ok.injEq, Prod.mk.injEq] at h
        refine Or.inr ⟨?_, h.1.symm, by omega, h.2.symm⟩
        cases g1 with
        | none => exact absurd (Or.inl rfl) h1
        | some a => exact ⟨a, rfl, by simpa using hlt⟩

theorem add_gate_ok_ext {st : state} {ty : gate_type} {tb : TT} {g1 g2 : Option Nat}
    {r : Option Nat} {st₁ : state} (h : add_gate st ty tb g1 g2 = .ok (r, st₁)) :
    Extends st.gates st₁.gates := by
  rcases add_gate_ok h with ⟨_, rfl⟩ | ⟨_, _, _, rfl⟩
  · exact ext_refl _
  · exact ext_snoc _ _

theorem add_gate_ok_none {st : state} {ty : gate_type} {tb : TT} {g1 g2 : Option Nat}
    {st₁ : state} (h : add_gate st ty tb g1 g2 = .ok (none, st₁)) : st₁ = st := by
  rcases add_gate_ok h with ⟨_, h1⟩ | ⟨_, h1, _⟩
  · exact h1
  · simp at h1

theorem add_gate_some {st : state} {ty : gate_type} {tb : TT} {g1 g2 : Option Nat}
    {j : Nat} {st₁ : state} (h : add_gate st ty tb g1 g2 = .ok (some j, st₁)) :
    j = num_gates st ∧ num_gates st₁ = num_gates st + 1 ∧ Extends st.gates st₁.gates ∧
      gtable st₁ j = tb ∧ (∀ i, i < num_gates st → gtable st₁ i = gtable st i) ∧
      st₁.max_gates = st.max_gates ∧ ∃ a, g1 = some a ∧ a < num_gates st := by
  rcases add_gate_ok h with ⟨h1, _⟩ | ⟨ha, hr, _, hst⟩
  · simp at h1
  · have hj : j = num_gates st := by simpa using hr
    subst hst
    subst hj
    refine ⟨rfl, by simp [num_gates], ext_snoc _ _, ?_, ?_, rfl, ha⟩
    · show ((st.gates ++ [(⟨ty, tb, g1, g2⟩ : gate)]).getD (st.gates.length) default).table = tb
      rw [getD_snoc_self]
    · intro i hi
      show ((st.gates ++ [(⟨ty, tb, g1, g2⟩ : gate)]).getD i default).table = _
      rw [getD_append_lt _ _ _ _ hi]
      rfl

theorem add_bin_some {ty : gate_type} {st : state} {g1 g2 : Option Nat} {j : Nat} {st₁ : state}
    (h : add_bin ty st g1 g2 = .ok (some j, st₁)) :
    j = num_gates st ∧ num_gates st₁ = num_gates st + 1 ∧ Extends st.gates st₁.gates ∧
      gtable st₁ j = opApp ty (tbl st g1) (tbl st g2) ∧
      (∀ i, i < num_gates st → gtable st₁ i = gtable st i) ∧
      st₁.max_gates = st.max_gates ∧ ∃ a, g1 = some a ∧ a < num_gates st := by
  unfold add_bin at h
  exact add_gate_some h

theorem add_not_some {st : state} {g : Option Nat} {j : Nat} {st₁ : state}
    (h : add_not_gate st g = .ok (some j, st₁)) :
    j = num_gates st ∧ num_gates st₁ = num_gates st + 1 ∧ Extends st.gates st₁.gates ∧
      gtable st₁ j = ttNot (tbl st g) ∧ (∀ i, i < num_gates st → gtable st₁ i = gtable st i) ∧
      st₁.max_gates = st.max_gates ∧ ∃ a, g = some a ∧ a < num_gates st := by
  unfold add_not_gate at h
  exact add_gate_some h

theorem add_bin_error {ty : gate_type} {st : state} {g1 g2 : Option Nat} {e : AKind}
    (h : add_bin ty st g1 g2 = .error e) : e = AKind.add := by
  unfold add_bin at h
  exact add_gate_error h

theorem add_not_error {st : state} {g : Option Nat} {e : AKind}
    (h : add_not_gate st g = .error e) : e = AKind.add := by
  unfold add_not_gate at h
  exact add_gate_error h

theorem add_bin_ok_ext {ty : gate_type} {st : state} {g1 g2 : Option Nat} {r : Option Nat}
    {st₁ : state} (h : add_bin ty st g1 g2 = .ok (r, st₁)) : Extends st.gates st₁.gates := by
  unfold add_bin at h
  exact add_gate_ok_ext h

theorem add_not_ok_ext {st : state} {g : Option Nat} {r : Option Nat} {st₁ : state}
    (h : add_not_gate st g = .ok (r, st₁)) : Extends st.gates st₁.gates := by
  unfold add_not_gate at h
  exact add_gate_ok_ext h

theorem notAfter_error {ty : gate_type} {st : state} {g1 g2 : Option Nat} {e : AKind}
    (h : notAfter ty st g1 g2 = .error e) : e = AKind.add := by
  unfold notAfter at h
  cases h1 : add_bin ty st g1 g2 with
  | error e1 =>
    rw [h1] at h
    simp only [Except.error.injEq] at h
    exact h ▸ add_bin_error h1
  | ok p =>
    obtain ⟨r1, s1⟩ := p
    rw [h1] at h
    exact add_not_error h

theorem notAfter_ok {ty : gate_type} {st : state} {g1 g2 : Option Nat} {r : Option Nat}
    {st₂ : state} (h : notAfter ty st g1 g2 = .ok (r, st₂)) :
    Extends st.gates st₂.gates ∧ ∀ j, r = some j →
      num_gates st ≤ j ∧ j + 1 = num_gates st₂ ∧
      gtable st₂ j = ttNot (opApp ty (tbl st g1) (tbl st g2)) := by
  unfold notAfter at h
  cases h1 : add_bin ty st g1 g2 with
  | error e1 =>
    rw [h1] at h
    simp at h
  | ok p =>
    obtain ⟨r1, s1⟩ := p
    rw [h1] at h
    refine ⟨ext_trans (add_bin_ok_ext h1) (add_not_ok_ext h), ?_⟩
    rintro j rfl
    obtain ⟨hj, hlen, _, htbl, _, _, a, rfl, ha2⟩ := add_not_some h
    obtain ⟨haj, hlen1, _, htbl1, _, _, _⟩ := add_bin_some h1
    have : tbl s1 (some a) = opApp ty (tbl st g1) (tbl st g2) := htbl1
    rw [this] at htbl
    refine ⟨by omega, by omega, htbl⟩

theorem binAfterNot_error {ty : gate_type} {st : state} {g1 g2 : Option Nat} {e : AKind}
    (h : binAfterNot ty st g1 g2 = .error e) : e = AKind.add := by
  unfold binAfterNot at h
  cases h1 : add_not_gate st g1 with
  | error e1 =>
    rw [h1] at h
    simp only [Except.error.injEq] at h
    exact h ▸ add_not_error h1
  | ok p =>
    obtain ⟨r1, s1⟩ := p
    rw [h1] at h
    exact add_bin_error h

theorem binAfterNot_ok {ty : gate_type} {st : state} {g1 g2 : Option Nat} {r : Option Nat}
    {st₂ : state} (hb : ∀ b, g2 = some b → b < num_gates st)
    (h : binAfterNot ty st g1 g2 = .ok (r, st₂)) :
    Extends st.gates st₂.gates ∧ ∀ j, r = some j →
      num_gates st ≤ j ∧ j + 1 = num_gates st₂ ∧
      gtable st₂ j = opApp ty (ttNot (tbl st g1)) (tbl st g2) := by
  unfold binAfterNot at h
  cases h1 : add_not_gate st g1 with
  | error e1 =>
    rw [h1] at h
    simp at h
  | ok p =>
    obtain ⟨r1, s1⟩ := p
    rw [h1] at h
    refine ⟨ext_trans (add_not_ok_ext h1) (add_bin_ok_ext h), ?_⟩
    rintro j rfl
    obtain ⟨hj, hlen, _, htbl, _, _, a, rfl, ha2⟩ := add_bin_some h
    obtain ⟨haj, hlen1, _, htbl1, hstab1, _, _⟩ := add_not_some h1
    have h2 : tbl s1 (some a) = ttNot (tbl st g1) := haj ▸ htbl1
    have h3 : tbl s1 g2 = tbl st g2 := by
      cases g2 with
      | none => rfl
      | some b => exact hstab1 b (hb b rfl)
    rw [h2, h3] at htbl
    refine ⟨by omega, by omega, htbl⟩

theorem chain2_error {t1 t2 : gate_type} {st : state} {g1 g2 g3 : Option Nat} {e : AKind}
    (h : chain2 t1 t2 st g1 g2 g3 = .error e) : e = AKind.add := by
  unfold chain2 at h
  cases h1 : add_bin t1 st g1 g2 with
  | error e1 =>
    rw [h1] at h
    simp only [Except.error.injEq] at h
    exact h ▸ add_bin_error h1
  | ok p =>
    obtain ⟨r1, s1⟩ := p
    rw [h1] at h
    exact add_bin_error h

theorem chain2_ok {t1 t2 : gate_type} {st : state} {g1 g2 g3 : Option Nat} {r : Option Nat}
    {st₂ : state} (hc : ∀ c, g3 = some c → c < num_gates st)
    (h : chain2 t1 t2 st g1 g2 g3 = .ok (r, st₂)) :
    Extends st.gates st₂.gates ∧ ∀ j, r = some j →
      num_gates st ≤ j ∧ j + 1 = num_gates st₂ ∧
      gtable st₂ j = opApp t2 (opApp t1 (tbl st g1) (tbl st g2)) (tbl st g3) := by
  unfold chain2 at h
  cases h1 : add_bin t1 st g1 g2 with
  | error e1 =>
    rw [h1] at h
    simp at h
  | ok p =>
    obtain ⟨r1, s1⟩ := p
    rw [h1] at h
    refine ⟨ext_trans (add_bin_ok_ext h1) (add_bin_ok_ext h), ?_⟩
    rintro j rfl
    obtain ⟨hj, hlen, _, htbl, _, _, a, rfl, ha2⟩ := add_bin_some h
    obtain ⟨haj, hlen1, _, htbl1, hstab1, _, _⟩ := add_bin_some h1
    have h2 : tbl s1 (some a) = opApp t1 (tbl st g1) (tbl st g2) := haj ▸ htbl1
    have h3 : tbl s1 g3 = tbl st g3 := by
      cases g3 with
      | none => rfl
      | some c => exact hstab1 c (hc c rfl)
    rw [h2, h3] at htbl
    refine ⟨by omega, by omega, htbl⟩

/-! ### Search-phase lemmas -/

theorem firstSome_some {α β : Type} {l : List α} {f : α → Option β} {b : β}
    (h : firstSome l f = some b) : ∃ a ∈ l, f a = some b := by
  induction l with
  | nil => simp [firstSome] at h
  | cons a l ih =>
    unfold firstSome at h
    cases hf : f a with
    | some c =>
      rw [hf] at h
      simp only [Option.some.injEq] at h
      exact ⟨a, by simp, by rw [hf, h]⟩
    | none =>
      rw [hf] at h
      obtain ⟨x, hx, hfx⟩ := ih h
      exact ⟨x, by simp [hx], hfx⟩

theorem firstSome_none {α β : Type} {l : List α} {f : α → Option β}
    (h : ∀ a ∈ l, f a = none) : firstSome l f = none := by
  induction l with
  | nil => rfl
  | cons a l ih =>
    unfold firstSome
    rw [h a (by simp)]
    exact ih (fun x hx => h x (by simp [hx]))

theorem firstSome_append {α β : Type} (l₁ l₂ : List α) (f : α → Option β) :
    firstSome (l₁ ++ l₂) f =
      match firstSome l₁ f with
      | some b => some b
      | none => firstSome l₂ f := by
  induction l₁ with
  | nil => rfl
  | cons a l ih =>
    have hcons : ∀ (t : List α),
        firstSome (a :: t) f =
          match f a with
          | some b => some b
          | none => firstSome t f := fun t => rfl
    rw [List.cons_append, hcons, hcons]
    cases f a with
    | some c => rfl
    | none => exact ih

theorem firstSome_range_least {β : Type} {f : Nat → Option β} {j n : Nat} {b : β}
    (hn : j < n) (hj : f j = some b) (hlt : ∀ i, i < j → f i = none) :
    firstSome (List.range n) f = some b := by
  induction n with
  | zero => omega
  | succ n ih =>
    rw [List.range_succ, firstSome_append]
    by_cases h : j < n
    · rw [ih h]
    · have hj2 : j = n := by omega
      subst hj2
      rw [firstSome_none (fun a ha => hlt a (List.mem_range.mp ha))]
      show firstSome [j] f = some b
      unfold firstSome
      rw [hj]

theorem mem_pairsL {n i k : Nat} (h : (i, k) ∈ pairsL n) : i < k ∧ k < n := by
  unfold pairsL at h
  rw [List.mem_flatMap] at h
  obtain ⟨x, hx, hm⟩ := h
  rw [List.mem_map] at hm
  obtain ⟨y, hy, he⟩ := hm
  rw [List.mem_filter] at hy
  obtain ⟨hy1, hy2⟩ := hy
  obtain ⟨rfl, rfl⟩ : x = i ∧ y = k := by
    simpa [Prod.ext_iff] using he
  exact ⟨of_decide_eq_true hy2, List.mem_range.mp hy1⟩

theorem mem_triplesL {n i k m : Nat} (h : (i, k, m) ∈ triplesL n) :
    i < k ∧ k < m ∧ m < n := by
  unfold triplesL at h
  rw [List.mem_flatMap] at h
  obtain ⟨p, hp, hm2⟩ := h
  rw [List.mem_map] at hm2
  obtain ⟨y, hy, he⟩ := hm2
  rw [List.mem_filter] at hy
  obtain ⟨hy1, hy2⟩ := hy
  obtain ⟨h1, h2, rfl⟩ : p.1 = i ∧ p.2 = k ∧ y = m := by
    simpa [Prod.ext_iff] using he
  have hpik : p.1 < p.2 ∧ p.2 < n := mem_pairsL (by
    rw [show (p.1, p.2) = p from rfl]
    exact hp)
  refine ⟨by omega, ?_, List.mem_range.mp hy1⟩
  have := of_decide_eq_true hy2
  omega

theorem phase1_some {st : state} {target mask : TT} {j : Nat}
    (h : phase1 st target mask = some j) :
    j < num_gates st ∧ ttEqMask target (gtable st j) mask = true := by
  unfold phase1 at h
  obtain ⟨a, ha, hf⟩ := firstSome_some h
  rw [List.mem_range] at ha
  split at hf
  · rename_i hc
    simp only [Option.some.injEq] at hf
    subst hf
    exact ⟨ha, hc⟩
  · simp at hf

theorem phase1_least {st : state} {target mask : TT} {j : Nat} (hn : j < num_gates st)
    (hj : ttEqMask target (gtable st j) mask = true)
    (hlt : ∀ i, i < j → ttEqMask target (gtable st i) mask = false) :
    phase1 st target mask = some j := by
  unfold phase1
  apply firstSome_range_least hn
  · simp [hj]
  · intro i hi
    simp [hlt i hi]

theorem phase2find_some {st : state} {target mask : TT} {j : Nat}
    (h : phase2find st target mask = some j) :
    j < num_gates st ∧ ttEqMask target (ttNot (gtable st j)) mask = true := by
  unfold phase2find at h
  obtain ⟨a, ha, hf⟩ := firstSome_some h
  rw [List.mem_range] at ha
  split at hf
  · rename_i hc
    simp only [Option.some.injEq] at hf
    subst hf
    exact ⟨ha, hc⟩
  · simp at hf

theorem phase3find_some {st : state} {target mask : TT} {i k : Nat} {o : Op3}
    (h : phase3find st target mask = some (i, k, o)) :
    i < k ∧ k < num_gates st ∧
      target &&& mask = opApp (op3ty o) (gtable st i &&& mask) (gtable st k &&& mask) := by
  unfold phase3find at h
  obtain ⟨p, hp, hf⟩ := firstSome_some h
  obtain ⟨hik, hkn⟩ := mem_pairsL (show (p.1, p.2) ∈ pairsL (num_gates st) from hp)
  simp only at hf
  split at hf
  · rename_i hc
    obtain ⟨rfl, rfl, rfl⟩ : p.1 = i ∧ p.2 = k ∧ Op3.or2 = o := by
      simpa [Prod.ext_iff] using hf
    exact ⟨hik, hkn, beq_iff_eq.mp hc⟩
  split at hf
  · rename_i hc
    obtain ⟨rfl, rfl, rfl⟩ : p.1 = i ∧ p.2 = k ∧ Op3.and2 = o := by
      simpa [Prod.ext_iff] using hf
    exact ⟨hik, hkn, beq_iff_eq.mp hc⟩
  split at hf
  · rename_i hc
    obtain ⟨rfl, rfl, rfl⟩ : p.1 = i ∧ p.2 = k ∧ Op3.xor2 = o := by
      simpa [Prod.ext_iff] using hf
    exact ⟨hik, hkn, beq_iff_eq.mp hc⟩
  · simp at hf

theorem phase4find_some {st : state} {target mask : TT} {i k : Nat} {o : Op4}
    (h : phase4find st target mask = some (i, k, o)) :
    i < k ∧ k < num_gates st ∧
      ttEqMask target (p4val (gtable st i) (gtable st k) o) mask = true := by
  unfold phase4find at h
  obtain ⟨p, hp, hf⟩ := firstSome_some h
  obtain ⟨hik, hkn⟩ := mem_pairsL (show (p.1, p.2) ∈ pairsL (num_gates st) from hp)
  simp only at hf
  split at hf
  · rename_i hc
    obtain ⟨rfl, rfl, rfl⟩ : p.1 = i ∧ p.2 = k ∧ Op4.nor = o := by
      simpa [Prod.ext_iff] using hf
    exact ⟨hik, hkn, hc⟩
  split at hf
  · rename_i hc
    obtain ⟨rfl, rfl, rfl⟩ : p.1 = i ∧ p.2 = k ∧ Op4.nand = o := by
      simpa [Prod.ext_iff] using hf
    exact ⟨hik, hkn, hc⟩
  split at hf
  · rename_i hc
    obtain ⟨rfl, rfl, rfl⟩ : p.1 = i ∧ p.2 = k ∧ Op4.xnor = o := by
      simpa [Prod.ext_iff] using hf
    exact ⟨hik, hkn, hc⟩
  split at hf
  · rename_i hc
    obtain ⟨rfl, rfl, rfl⟩ : p.1 = i ∧ p.2 = k ∧ Op4.ornotIK = o := by
      simpa [Prod.ext_iff] using hf
    exact ⟨hik, hkn, hc⟩
  split at hf
  · rename_i hc
    obtain ⟨rfl, rfl, rfl⟩ : p.1 = i ∧ p.2 = k ∧ Op4.ornotKI = o := by
      simpa [Prod.ext_iff] using hf
    exact ⟨hik, hkn, hc⟩
  split at hf
  · rename_i hc
    obtain ⟨rfl, rfl, rfl⟩ : p.1 = i ∧ p.2 = k ∧ Op4.andnotIK = o := by
      simpa [Prod.ext_iff] using hf
    exact ⟨hik, hkn, hc⟩
  split at hf
  · rename_i hc
    obtain ⟨rfl, rfl, rfl⟩ : p.1 = i ∧ p.2 = k ∧ Op4.andnotKI = o := by
      simpa [Prod.ext_iff] using hf
    exact ⟨hik, hkn, hc⟩
  · simp at hf

theorem mem_tripleCandidates_lt {i k m n : Nat} {c : (Nat × Nat × Nat) × Chain}
    (hi : i < n) (hk : k < n) (hm : m < n) (h : c ∈ tripleCandidates i k m) :
    c.1.1 < n ∧ c.1.2.1 < n ∧ c.1.2.2 < n := by
  simp only [tripleCandidates, List.mem_cons, List.not_mem_nil, or_false] at h
  rcases h with rfl | rfl | rfl | rfl | rfl | rfl | rfl | rfl | rfl | rfl | rfl | rfl | rfl |
    rfl | rfl | rfl | rfl | rfl | rfl | rfl | rfl <;>
    first
    | exact ⟨hi, hk, hm⟩
    | exact ⟨hi, hm, hk⟩
    | exact ⟨hk, hm, hi⟩

theorem phase5find_some {st : state} {target mask : TT} {c : (Nat × Nat × Nat) × Chain}
    (h : phase5find st target mask = some c) :
    c.1.1 < num_gates st ∧ c.1.2.1 < num_gates st ∧ c.1.2.2 < num_gates st ∧
      target &&& mask = candVal st mask c := by
  unfold phase5find at h
  obtain ⟨t, ht, hf⟩ := firstSome_some h
  obtain ⟨hik, hkm, hmn⟩ :=
    mem_triplesL (show (t.1, t.2.1, t.2.2) ∈ triplesL (num_gates st) from ht)
  obtain ⟨cc, hcc, hfc⟩ := firstSome_some hf
  split at hfc
  · rename_i hval
    simp only [Option.some.injEq] at hfc
    subst hfc
    have hb := mem_tripleCandidates_lt (show t.1 < num_gates st by omega)
      (show t.2.1 < num_gates st by omega) hmn hcc
    exact ⟨hb.1, hb.2.1, hb.2.2, beq_iff_eq.mp hval⟩
  · simp at hfc

/-! ### Phase-6 multiplexer lemmas -/

theorem add_bin_g2_none {ty : gate_type} {st : state} {g1 : Option Nat}
    (hty : ty ≠ gate_type.NOT) : add_bin ty st g1 none = .ok (none, st) := by
  unfold add_bin add_gate
  rw [if_pos (Or.inr ⟨rfl, hty⟩)]

theorem andMux_spec (rec : state → TT → TT → List (Fin 8) → Except AKind (Option Nat × state))
    (hrec : ∀ s t m b, 8 ≤ num_gates s → m < 2 ^ 256 → Good s t m (rec s t m b))
    {st₁ : state} {fb : Option Nat} {target mask fsel : TT} (nb : List (Fin 8)) {bitv : Nat}
    (h8 : 8 ≤ num_gates st₁) (hm : mask < 2 ^ 256)
    (hbv : bitv < num_gates st₁) (hfs : gtable st₁ bitv = fsel)
    (hfb : ∀ j, fb = some j → j < num_gates st₁ ∧
      ttEqMask (target &&& ttNot fsel) (gtable st₁ j) (mask &&& ttNot fsel) = true) :
    MuxRes st₁ target mask (andMux rec st₁ fb target mask fsel nb bitv) := by
  cases fb with
  | none => exact ⟨ext_refl _, by simp⟩
  | some fbi =>
    simp only [andMux]
    obtain ⟨hfbi, hfbT⟩ := hfb fbi rfl
    have hmf : mask &&& fsel < 2 ^ 256 := lt_of_le_of_lt Nat.and_le_left hm
    have Gfc := hrec st₁ (gtable st₁ fbi ^^^ target) (mask &&& fsel) nb h8 hmf
    cases hfc : rec st₁ (gtable st₁ fbi ^^^ target) (mask &&& fsel) nb with
    | error e =>
      rw [hfc] at Gfc
      exact Gfc
    | ok p =>
      obtain ⟨fc, st₂⟩ := p
      dsimp only []
      rw [hfc] at Gfc
      obtain ⟨hext₂, hfcP⟩ := Gfc
      cases hand : add_and_gate st₂ fc (some bitv) with
      | error e =>
        have he : e = AKind.add := by
          unfold add_and_gate at hand
          exact add_bin_error hand
        subst he
        exact (by decide : AKind.add ≠ AKind.mux)
      | ok q =>
        obtain ⟨andg, st₃⟩ := q
        dsimp only []
        have hand2 : add_bin gate_type.AND st₂ fc (some bitv) = .ok (andg, st₃) := hand
        cases hxor : add_xor_gate st₃ (some fbi) andg with
        | error e =>
          have he : e = AKind.add := by
            unfold add_xor_gate at hxor
            exact add_bin_error hxor
          subst he
          exact (by decide : AKind.add ≠ AKind.mux)
        | ok w =>
          obtain ⟨mr, st₄⟩ := w
          have hxorb : add_bin gate_type.XOR st₃ (some fbi) andg = .ok (mr, st₄) := hxor
          refine ⟨ext_trans hext₂ (ext_trans (add_bin_ok_ext hand2) (add_bin_ok_ext hxorb)), ?_⟩
          rintro j rfl
          obtain ⟨hj, hlen4, _, htbl4, hstab4, _, _⟩ := add_bin_some hxorb
          cases andg with
          | none =>
            rw [add_bin_g2_none (by decide)] at hxorb
            simp at hxorb
          | some ag =>
            obtain ⟨hag, hlen3, hext3, htbl3, hstab3, _, fc2, hfc2, hfc2lt⟩ :=
              add_bin_some hand2
            subst hfc2
            obtain ⟨hfclw, hfcT, _, _⟩ := hfcP fc2 rfl
            have hfbi₂ : fbi < num_gates st₂ := lt_of_lt_of_le hfbi (ext_length hext₂)
            have e1 : gtable st₃ fbi = gtable st₁ fbi := by
              rw [hstab3 fbi hfbi₂, gtable_ext hext₂ hfbi]
            have e3 : gtable st₂ bitv = fsel := by
              rw [gtable_ext hext₂ hbv, hfs]
            have e2 : gtable st₃ ag = gtable st₂ fc2 &&& fsel := by
              rw [htbl3]
              show gtable st₂ fc2 &&& gtable st₂ bitv = _
              rw [e3]
            have e4 : gtable st₄ j = gtable st₁ fbi ^^^ (gtable st₂ fc2 &&& fsel) := by
              rw [htbl4]
              show gtable st₃ fbi ^^^ gtable st₃ ag = _
              rw [e1, e2]
            have hnum₂ : num_gates st₁ ≤ num_gates st₂ := ext_length hext₂
            refine ⟨by omega, by omega, ?_⟩
            rw [e4]
            exact mux_and_eq hm hfbT hfcT

theorem orMux_spec (rec : state → TT → TT → List (Fin 8) → Except AKind (Option Nat × state))
    (hrec : ∀ s t m b, 8 ≤ num_gates s → m < 2 ^ 256 → Good s t m (rec s t m b))
    {st₄ : state} {fd : Option Nat} {target mask fsel : TT} (nb : List (Fin 8)) {bitv : Nat}
    (h8 : 8 ≤ num_gates st₄) (hm : mask < 2 ^ 256)
    (hbv : bitv < num_gates st₄) (hfs : gtable st₄ bitv = fsel)
    (hfd : ∀ j, fd = some j → j < num_gates st₄ ∧
      ttEqMask (ttNot target &&& fsel) (gtable st₄ j) (mask &&& fsel) = true) :
    MuxRes st₄ target mask (orMux rec st₄ fd target mask fsel nb bitv) := by
  cases fd with
  | none => exact ⟨ext_refl _, by simp⟩
  | some fdi =>
    simp only [orMux]
    obtain ⟨hfdi, hfdT⟩ := hfd fdi rfl
    have hmb : mask &&& ttNot fsel < 2 ^ 256 := lt_of_le_of_lt Nat.and_le_left hm
    have Gfe := hrec st₄ (gtable st₄ fdi ^^^ target) (mask &&& ttNot fsel) nb h8 hmb
    cases hfe : rec st₄ (gtable st₄ fdi ^^^ target) (mask &&& ttNot fsel) nb with
    | error e =>
      rw [hfe] at Gfe
      exact Gfe
    | ok p =>
      obtain ⟨fe, st₅⟩ := p
      dsimp only []
      rw [hfe] at Gfe
      obtain ⟨hext₅, hfeP⟩ := Gfe
      cases hor : add_or_gate st₅ fe (some bitv) with
      | error e =>
        have he : e = AKind.add := by
          unfold add_or_gate at hor
          exact add_bin_error hor
        subst he
        exact (by decide : AKind.add ≠ AKind.mux)
      | ok q =>
        obtain ⟨org, st₆⟩ := q
        dsimp only []
        have hor2 : add_bin gate_type.OR st₅ fe (some bitv) = .ok (org, st₆) := hor
        cases hxor : add_xor_gate st₆ (some fdi) org with
        | error e =>
          have he : e = AKind.add := by
            unfold add_xor_gate at hxor
            exact add_bin_error hxor
          subst he
          exact (by decide : AKind.add ≠ AKind.mux)
        | ok w =>
          obtain ⟨mr, st₇⟩ := w
          have hxorb : add_bin gate_type.XOR st₆ (some fdi) org = .ok (mr, st₇) := hxor
          refine ⟨ext_trans hext₅ (ext_trans (add_bin_ok_ext hor2) (add_bin_ok_ext hxorb)), ?_⟩
          rintro j rfl
          obtain ⟨hj, hlen7, _, htbl7, hstab7, _, _⟩ := add_bin_some hxorb
          cases org with
          | none =>
            rw [add_bin_g2_none (by decide)] at hxorb
            simp at hxorb
          | some og =>
            obtain ⟨hog, hlen6, hext6, htbl6, hstab6, _, fe2, hfe2, hfe2lt⟩ :=
              add_bin_some hor2
            subst hfe2
            obtain ⟨hfelw, hfeT, _, _⟩ := hfeP fe2 rfl
            have hfdi₅ : fdi < num_gates st₅ := lt_of_lt_of_le hfdi (ext_length hext₅)
            have e1 : gtable st₆ fdi = gtable st₄ fdi := by
              rw [hstab6 fdi hfdi₅, gtable_ext hext₅ hfdi]
            have e3 : gtable st₅ bitv = fsel := by
              rw [gtable_ext hext₅ hbv, hfs]
            have e2 : gtable st₆ og = gtable st₅ fe2 ||| fsel := by
              rw [htbl6]
              show gtable st₅ fe2 ||| gtable st₅ bitv = _
              rw [e3]
            have e4 : gtable st₇ j = gtable st₄ fdi ^^^ (gtable st₅ fe2 ||| fsel) := by
              rw [htbl7]
              show gtable st₆ fdi ^^^ gtable st₆ og = _
              rw [e1, e2]
            have hnum₅ : num_gates st₄ ≤ num_gates st₅ := ext_length hext₅
            refine ⟨by omega, by omega, ?_⟩
            rw [e4]
            exact mux_or_eq hm hfdT hfeT

theorem selectMux_cases {muxAnd muxOr : Option Nat} {nstAnd nstOr : state}
    (hnn : ¬(muxAnd = none ∧ muxOr = none)) :
    (selectMux muxAnd nstAnd muxOr nstOr = (muxAnd, nstAnd) ∧ muxAnd ≠ none) ∨
    (selectMux muxAnd nstAnd muxOr nstOr = (muxOr, nstOr) ∧ muxOr ≠ none) := by
  unfold selectMux
  split
  · rename_i hcond
    refine Or.inl ⟨rfl, ?_⟩
    rcases hcond with h | ⟨h1, h2⟩
    · intro ha
      exact hnn ⟨ha, h⟩
    · exact h1
  · rename_i hcond
    refine Or.inr ⟨rfl, ?_⟩
    intro ho
    exact hcond (Or.inl ho)

theorem phase6body_good (rec : state → TT → TT → List (Fin 8) → Except AKind (Option Nat × state))
    (hrec : ∀ s t m b, 8 ≤ num_gates s → m < 2 ^ 256 → Good s t m (rec s t m b))
    {st : state} {target mask : TT} (used : List (Fin 8)) (bit : Fin 8) {best : state}
    (h8 : 8 ≤ num_gates st) (hm : mask < 2 ^ 256)
    (hb : best = best0 ∨ Cand st target mask best) :
    LoopInv st target mask (phase6body rec st target mask used bit best) := by
  unfold phase6body
  have hmb : mask &&& ttNot (gtable st bit.val) < 2 ^ 256 :=
    lt_of_le_of_lt Nat.and_le_left hm
  have hmf : mask &&& gtable st bit.val < 2 ^ 256 := lt_of_le_of_lt Nat.and_le_left hm
  have hbv : bit.val < num_gates st := lt_of_lt_of_le bit.isLt h8
  have Gfb := hrec st (target &&& ttNot (gtable st bit.val))
    (mask &&& ttNot (gtable st bit.val)) (used ++ [bit]) h8 hmb
  cases hfb : rec st (target &&& ttNot (gtable st bit.val))
      (mask &&& ttNot (gtable st bit.val)) (used ++ [bit]) with
  | error e =>
    rw [hfb] at Gfb
    exact Gfb
  | ok p =>
    obtain ⟨fb, st₁⟩ := p
    dsimp only []
    rw [hfb] at Gfb
    obtain ⟨hext₁, hfbP⟩ := Gfb
    have h8₁ : 8 ≤ num_gates st₁ := le_trans h8 (ext_length hext₁)
    have hbv₁ : bit.val < num_gates st₁ := lt_of_lt_of_le hbv (ext_length hext₁)
    have hfs₁ : gtable st₁ bit.val = gtable st bit.val := gtable_ext hext₁ hbv
    have hAnd := andMux_spec rec hrec (used ++ [bit]) h8₁ hm hbv₁ hfs₁ (fun j hj => by
      obtain ⟨h1, h2, _, _⟩ := hfbP j hj
      exact ⟨h1, h2⟩)
    cases hand : andMux rec st₁ fb target mask (gtable st bit.val) (used ++ [bit]) bit.val with
    | error e =>
      rw [hand] at hAnd
      exact hAnd
    | ok q =>
      obtain ⟨muxAnd, nstAnd⟩ := q
      dsimp only []
      rw [hand] at hAnd
      obtain ⟨hextA, hmuxA⟩ := hAnd
      have GfdF := hrec st (ttNot target &&& gtable st bit.val)
        (mask &&& gtable st bit.val) (used ++ [bit]) h8 hmf
      cases hfd : rec st (ttNot target &&& gtable st bit.val)
          (mask &&& gtable st bit.val) (used ++ [bit]) with
      | error e =>
        rw [hfd] at GfdF
        exact GfdF
      | ok p2 =>
        obtain ⟨fd, st₄⟩ := p2
        dsimp only []
        rw [hfd] at GfdF
        obtain ⟨hext₄, hfdP⟩ := GfdF
        have h8₄ : 8 ≤ num_gates st₄ := le_trans h8 (ext_length hext₄)
        have hbv₄ : bit.val < num_gates st₄ := lt_of_lt_of_le hbv (ext_length hext₄)
        have hfs₄ : gtable st₄ bit.val = gtable st bit.val := gtable_ext hext₄ hbv
        have hOr := orMux_spec rec hrec (used ++ [bit]) h8₄ hm hbv₄ hfs₄ (fun j hj => by
          obtain ⟨h1, h2, _, _⟩ := hfdP j hj
          exact ⟨h1, h2⟩)
        cases hor : orMux rec st₄ fd target mask (gtable st bit.val) (used ++ [bit]) bit.val with
        | error e =>
          rw [hor] at hOr
          exact hOr
        | ok q2 =>
          obtain ⟨muxOr, nstOr⟩ := q2
          dsimp only []
          rw [hor] at hOr
          obtain ⟨hextO, hmuxO⟩ := hOr
          by_cases hnn : muxAnd = none ∧ muxOr = none
          · rw [if_pos hnn]
            exact hb
          · rw [if_neg hnn]
            rcases hsm : selectMux muxAnd nstAnd muxOr nstOr with ⟨mo, nst⟩
            have hCand : Cand st target mask nst ∧
                ttEqMask target (gtable nst (mo.getD 0)) mask = true := by
              rcases selectMux_cases hnn with ⟨hse, hne⟩ | ⟨hse, hne⟩
              · rw [hsm] at hse
                obtain ⟨hmo, hnst⟩ : mo = muxAnd ∧ nst = nstAnd := by
                  simpa [Prod.ext_iff] using hse
                subst hmo
                subst hnst
                cases hmo2 : mo with
                | none => exact absurd hmo2 hne
                | some j =>
                  obtain ⟨hlt, hj1, heq⟩ := hmuxA j hmo2
                  have hj : j = num_gates nst - 1 := by omega
                  refine ⟨⟨ext_trans hext₁ hextA, ?_, ?_⟩, ?_⟩
                  · have := num_le_of_ext hext₁
                    omega
                  · rw [← hj]
                    exact heq
                  · simpa [hmo2] using heq
              · rw [hsm] at hse
                obtain ⟨hmo, hnst⟩ : mo = muxOr ∧ nst = nstOr := by
                  simpa [Prod.ext_iff] using hse
                subst hmo
                subst hnst
                cases hmo2 : mo with
                | none => exact absurd hmo2 hne
                | some j =>
                  obtain ⟨hlt, hj1, heq⟩ := hmuxO j hmo2
                  have hj : j = num_gates nst - 1 := by omega
                  refine ⟨⟨ext_trans hext₄ hextO, ?_, ?_⟩, ?_⟩
                  · have := num_le_of_ext hext₄
                    omega
                  · rw [← hj]
                    exact heq
                  · simpa [hmo2] using heq
            rw [if_pos hCand.2]
            by_cases hup : num_gates best = 0 ∨ num_gates nst < num_gates best
            · rw [if_pos hup]
              exact Or.inr hCand.1
            · rw [if_neg hup]
              exact hb

theorem phase6loop_good (rec : state → TT → TT → List (Fin 8) → Except AKind (Option Nat × state))
    (hrec : ∀ s t m b, 8 ≤ num_gates s → m < 2 ^ 256 → Good s t m (rec s t m b))
    {st : state} {target mask : TT} (used : List (Fin 8))
    (h8 : 8 ≤ num_gates st) (hm : mask < 2 ^ 256) :
    ∀ (bits : List (Fin 8)) (best : state), (best = best0 ∨ Cand st target mask best) →
      LoopInv st target mask (phase6loop rec st target mask used bits best) := by
  intro bits
  induction bits with
  | nil =>
    intro best hb
    exact hb
  | cons bit rest ih =>
    intro best hb
    unfold phase6loop
    split
    · exact ih best hb
    · cases hbody : phase6body rec st target mask used bit best with
      | error e =>
        have hx := phase6body_good rec hrec used bit h8 hm hb
        rw [hbody] at hx
        exact hx
      | ok b₁ =>
        have hx := phase6body_good rec hrec used bit h8 hm hb
        rw [hbody] at hx
        exact ih b₁ hx

/-! ### Phase emission lemmas and the main correctness invariant -/

theorem applyOp4_error {st : state} {o : Op4} {i k : Nat} {e : AKind}
    (h : applyOp4 st o i k = .error e) : e = AKind.add := by
  cases o <;> simp only [applyOp4] at h <;>
    first
    | exact notAfter_error h
    | exact binAfterNot_error h

theorem applyOp4_spec {st : state} {o : Op4} {i k : Nat} {r : Option Nat} {st₁ : state}
    (hi : i < num_gates st) (hk : k < num_gates st) (h : applyOp4 st o i k = .ok (r, st₁)) :
    Extends st.gates st₁.gates ∧ ∀ j, r = some j →
      num_gates st ≤ j ∧ j + 1 = num_gates st₁ ∧
      gtable st₁ j = p4val (gtable st i) (gtable st k) o := by
  cases o <;> simp only [applyOp4] at h
  case nor =>
    obtain ⟨hext, hs⟩ := notAfter_ok h
    refine ⟨hext, fun j hj => ?_⟩
    obtain ⟨h1, h2, h3⟩ := hs j hj
    exact ⟨h1, h2, by rw [h3]; rfl⟩
  case nand =>
    obtain ⟨hext, hs⟩ := notAfter_ok h
    refine ⟨hext, fun j hj => ?_⟩
    obtain ⟨h1, h2, h3⟩ := hs j hj
    exact ⟨h1, h2, by rw [h3]; rfl⟩
  case xnor =>
    obtain ⟨hext, hs⟩ := notAfter_ok h
    refine ⟨hext, fun j hj => ?_⟩
    obtain ⟨h1, h2, h3⟩ := hs j hj
    exact ⟨h1, h2, by rw [h3]; rfl⟩
  case ornotIK =>
    obtain ⟨hext, hs⟩ := binAfterNot_ok (fun b hbe => by cases hbe; exact hk) h
    refine ⟨hext, fun j hj => ?_⟩
    obtain ⟨h1, h2, h3⟩ := hs j hj
    exact ⟨h1, h2, by rw [h3]; rfl⟩
  case ornotKI =>
    obtain ⟨hext, hs⟩ := binAfterNot_ok (fun b hbe => by cases hbe; exact hi) h
    refine ⟨hext, fun j hj => ?_⟩
    obtain ⟨h1, h2, h3⟩ := hs j hj
    exact ⟨h1, h2, by rw [h3]; rfl⟩
  case andnotIK =>
    obtain ⟨hext, hs⟩ := binAfterNot_ok (fun b hbe => by cases hbe; exact hk) h
    refine ⟨hext, fun j hj => ?_⟩
    obtain ⟨h1, h2, h3⟩ := hs j hj
    exact ⟨h1, h2, by rw [h3]; rfl⟩
  case andnotKI =>
    obtain ⟨hext, hs⟩ := binAfterNot_ok (fun b hbe => by cases hbe; exact hi) h
    refine ⟨hext, fun j hj => ?_⟩
    obtain ⟨h1, h2, h3⟩ := hs j hj
    exact ⟨h1, h2, by rw [h3]; rfl⟩

theorem chainTys_bin (ch : Chain) : isBin (chainTys ch).1 ∧ isBin (chainTys ch).2 := by
  cases ch <;> constructor <;>
    first
    | exact Or.inl rfl
    | exact Or.inr (Or.inl rfl)
    | exact Or.inr (Or.inr rfl)

theorem applyChain_error {st : state} {c : (Nat × Nat × Nat) × Chain} {e : AKind}
    (h : applyChain st c = .error e) : e = AKind.add := by
  obtain ⟨⟨a, b, d⟩, ch⟩ := c
  cases ch <;> simp only [applyChain] at h <;> exact chain2_error h

theorem applyChain_spec {st : state} {c : (Nat × Nat × Nat) × Chain} {r : Option Nat}
    {st₁ : state} (h3 : c.1.2.2 < num_gates st) (h : applyChain st c = .ok (r, st₁)) :
    Extends st.gates st₁.gates ∧ ∀ j, r = some j →
      num_gates st ≤ j ∧ j + 1 = num_gates st₁ ∧
      gtable st₁ j = opApp (chainTys c.2).2
        (opApp (chainTys c.2).1 (gtable st c.1.1) (gtable st c.1.2.1)) (gtable st c.1.2.2) := by
  obtain ⟨⟨a, b, d⟩, ch⟩ := c
  simp only at h3 ⊢
  cases ch <;> simp only [applyChain] at h <;>
    · obtain ⟨hext, hs⟩ := chain2_ok (fun x hx => by cases hx; exact h3) h
      refine ⟨hext, fun j hj => ?_⟩
      obtain ⟨h1, h2, ht⟩ := hs j hj
      exact ⟨h1, h2, by rw [ht]; rfl⟩

theorem ccBody_good (rec : state → TT → TT → List (Fin 8) → Except AKind (Option Nat × state))
    (hrec : ∀ s t m b, 8 ≤ num_gates s → m < 2 ^ 256 → Good s t m (rec s t m b))
    {st : state} {target mask : TT} {inbits : List (Fin 8)}
    (h8 : 8 ≤ num_gates st) (hm : mask < 2 ^ 256) :
    Good st target mask (ccBody rec st target mask inbits) := by
  unfold ccBody
  cases hp1 : phase1 st target mask with
  | some i =>
    dsimp only []
    obtain ⟨hi, heq⟩ := phase1_some hp1
    exact ⟨ext_refl _, fun j hj => by
      obtain rfl : i = j := Option.some.inj hj
      exact ⟨hi, heq, fun _ => rfl, fun hle => absurd hle (by omega)⟩⟩
  | none =>
  dsimp only []
  cases hp2 : phase2find st target mask with
  | some i =>
    dsimp only []
    obtain ⟨hi, heq⟩ := phase2find_some hp2
    cases hr : add_not_gate st (some i) with
    | error e =>
      have he := add_not_error hr
      subst he
      exact (by decide : AKind.add ≠ AKind.mux)
    | ok p =>
      obtain ⟨r, st₁⟩ := p
      refine ⟨add_not_ok_ext hr, ?_⟩
      rintro j rfl
      obtain ⟨hj, hlen, _, htbl, _, _, _⟩ := add_not_some hr
      subst hj
      refine ⟨by omega, ?_, fun hcon => absurd hcon (by omega), fun _ => by omega⟩
      rw [htbl]
      exact heq
  | none =>
  dsimp only []
  cases hp3 : phase3find st target mask with
  | some t =>
    obtain ⟨i, k, o⟩ := t
    dsimp only []
    obtain ⟨hik, hkn, hcomb⟩ := phase3find_some hp3
    cases hr : add_bin (op3ty o) st (some i) (some k) with
    | error e =>
      have he := add_bin_error hr
      subst he
      exact (by decide : AKind.add ≠ AKind.mux)
    | ok p =>
      obtain ⟨r, st₁⟩ := p
      refine ⟨add_bin_ok_ext hr, ?_⟩
      rintro j rfl
      obtain ⟨hj, hlen, _, htbl, _, _, _⟩ := add_bin_some hr
      subst hj
      have hbin : isBin (op3ty o) := by
        cases o
        · exact Or.inr (Or.inl rfl)
        · exact Or.inl rfl
        · exact Or.inr (Or.inr rfl)
      refine ⟨by omega, ?_, fun hcon => absurd hcon (by omega), fun _ => by omega⟩
      rw [htbl]
      apply eqMask_of_masked
      rw [show tbl st (some i) = gtable st i from rfl, show tbl st (some k) = gtable st k from rfl,
        ← opApp_mask hbin]
      exact hcomb
  | none =>
  dsimp only []
  cases hp4 : phase4find st target mask with
  | some t =>
    obtain ⟨i, k, o⟩ := t
    dsimp only []
    obtain ⟨hik, hkn, heq⟩ := phase4find_some hp4
    cases hr : applyOp4 st o i k with
    | error e =>
      have he := applyOp4_error hr
      subst he
      exact (by decide : AKind.add ≠ AKind.mux)
    | ok p =>
      obtain ⟨r, st₁⟩ := p
      obtain ⟨hext, hs⟩ := applyOp4_spec (lt_trans hik hkn) hkn hr
      refine ⟨hext, ?_⟩
      rintro j rfl
      obtain ⟨h1, h2, h3⟩ := hs j rfl
      refine ⟨by omega, ?_, fun hcon => absurd hcon (by omega), fun _ => by omega⟩
      rw [h3]
      exact heq
  | none =>
  dsimp only []
  cases hp5 : phase5find st target mask with
  | some c =>
    dsimp only []
    obtain ⟨hb1, hb2, hb3, hcomb⟩ := phase5find_some hp5
    cases hr : applyChain st c with
    | error e =>
      have he := applyChain_error hr
      subst he
      exact (by decide : AKind.add ≠ AKind.mux)
    | ok p =>
      obtain ⟨r, st₁⟩ := p
      obtain ⟨hext, hs⟩ := applyChain_spec hb3 hr
      refine ⟨hext, ?_⟩
      rintro j rfl
      obtain ⟨h1, h2, h3⟩ := hs j rfl
      refine ⟨by omega, ?_, fun hcon => absurd hcon (by omega), fun _ => by omega⟩
      rw [h3]
      apply eqMask_of_masked
      obtain ⟨hbin1, hbin2⟩ := chainTys_bin c.2
      rw [← opApp_mask hbin2, ← opApp_mask hbin1]
      exact hcomb
  | none =>
  dsimp only []
  by_cases hbitp : 6 ≤ min inbits.length 6
  · rw [if_pos hbitp]
    exact (by decide : AKind.inbits ≠ AKind.mux)
  · rw [if_neg hbitp]
    have hloop : LoopInv st target mask (phase6loop rec st target mask
        (inbits.take (min inbits.length 6)) (List.finRange 8) best0) :=
      phase6loop_good rec hrec (inbits.take (min inbits.length 6)) h8 hm
        (List.finRange 8) best0 (Or.inl rfl)
    cases hl : phase6loop rec st target mask (inbits.take (min inbits.length 6))
        (List.finRange 8) best0 with
    | error e =>
      rw [hl] at hloop
      exact hloop
    | ok best =>
      dsimp only []
      rw [hl] at hloop
      by_cases hz : num_gates best = 0
      · rw [if_pos hz]
        exact ⟨ext_refl _, by simp⟩
      · rw [if_neg hz]
        rcases hloop with rfl | ⟨hext, hlt, heq⟩
        · exact absurd rfl hz
        · refine ⟨hext, ?_⟩
          rintro j hj
          obtain rfl : num_gates best - 1 = j := Option.some.inj hj
          refine ⟨by omega, heq, fun hcon => absurd hcon (by omega), fun _ => by omega⟩

theorem create_circuit_good_all :
    ∀ (fuel : Nat) (st : state) (target mask : TT) (inbits : List (Fin 8)),
      8 ≤ num_gates st → mask < 2 ^ 256 →
      Good st target mask (create_circuit fuel st target mask inbits) := by
  intro fuel
  induction fuel with
  | zero =>
    intro st target mask inbits h8 hm
    exact (by decide : AKind.fuel ≠ AKind.mux)
  | succ f ih =>
    intro st target mask inbits h8 hm
    simp only [create_circuit]
    exact ccBody_good _ (fun s t m b h8s hms => ih s t m b h8s hms) h8 hm

/-! ### Claim theorems -/

/-- C1: for every call `create_circuit st target mask usedBits` (on a state carrying at
least the eight input gates, with a representable 256-bit mask), the result is either
`NO_GATE` or a gate index `r` such that: if `r` denotes a pre-existing gate the state is
unchanged; otherwise new gates were appended and `r` is the index of the last appended
gate; in both success cases the returned gate's table equals the target under the mask
(equivalently, the masked-equality assert of C line 417 never fires). -/
theorem create_circuit_spec (fuel : Nat) (st : state) (target mask : TT)
    (inbits : List (Fin 8)) (h8 : 8 ≤ num_gates st) (hm : mask < 2 ^ 256) :
    create_circuit fuel st target mask inbits ≠ .error AKind.mux ∧
    ∀ r st₁, create_circuit fuel st target mask inbits = .ok (some r, st₁) →
      ttEqMask target (gtable st₁ r) mask = true ∧
      (r < num_gates st → st₁ = st) ∧
      (num_gates st ≤ r → Extends st.gates st₁.gates ∧ r + 1 = num_gates st₁) := by
  have hg := create_circuit_good_all fuel st target mask inbits h8 hm
  constructor
  · intro hcon
    rw [hcon] at hg
    exact hg rfl
  · intro r st₁ hok
    rw [hok] at hg
    obtain ⟨hext, hs⟩ := hg
    obtain ⟨h1, h2, h3, h4⟩ := hs r rfl
    exact ⟨h2, h3, fun hle => ⟨hext, h4 hle⟩⟩

/-- Witness for C1: synthesizing the table of input 3 from the fresh state reuses
gate 3 and leaves the state unchanged. -/
theorem create_circuit_spec_witness :
    8 ≤ num_gates initial_state ∧ ttFull < 2 ^ 256 ∧
    create_circuit 1 initial_state (gtable initial_state 3) ttFull [] =
      .ok (some 3, initial_state) ∧
    (ttEqMask (gtable initial_state 3) (gtable initial_state 3) ttFull = true ∧
      (3 < num_gates initial_state → initial_state = initial_state) ∧
      (num_gates initial_state ≤ 3 →
        Extends initial_state.gates initial_state.gates ∧ 3 + 1 = num_gates initial_state)) :=
  ⟨by decide, by decide, by decide,
    (create_circuit_spec 1 initial_state (gtable initial_state 3) ttFull [] (by decide)
      (by decide)).2 3 initial_state (by decide)⟩

/-- C2 (amended): after a successful synthesis, the driver keeps only the tightened
`max_gates`: the next output starts from the original gates and outputs of
`default_state`, not from the synthesized state (which is only written to a file). -/
theorem driver_step_spec (fuel : Nat) (tgt : TT) (ds : state) (o : Nat) :
    ((driver_step fuel tgt ds o).gates = ds.gates ∧
      (driver_step fuel tgt ds o).outputs = ds.outputs) ∧
    (∀ idx st₁, ds.outputs.getD o none = none →
      create_circuit fuel ds tgt ttFull [] = .ok (some idx, st₁) →
      num_gates st₁ < ds.max_gates →
      driver_step fuel tgt ds o = { ds with max_gates := num_gates st₁ }) := by
  constructor
  · unfold driver_step
    split
    · exact ⟨rfl, rfl⟩
    · cases h : create_circuit fuel ds tgt ttFull [] with
      | error e => exact ⟨rfl, rfl⟩
      | ok p =>
        obtain ⟨r, st₁⟩ := p
        dsimp only []
        cases r with
        | none => exact ⟨rfl, rfl⟩
        | some idx =>
          dsimp only []
          split
          · exact ⟨rfl, rfl⟩
          · exact ⟨rfl, rfl⟩
  · intro idx st₁ hnone hok hlt
    unfold driver_step
    rw [if_neg (show ¬((ds.outputs.getD o none).isSome = true) by rw [hnone]; simp), hok]
    dsimp only []
    have hlt2 : num_gates { st₁ with outputs := st₁.outputs.set o (some idx) } <
        ds.max_gates := hlt
    rw [if_pos hlt2]
    rfl

/-- Witness for C2's amended theorem: synthesizing the complement of input 0 appends
one NOT gate; the driver discards it and only tightens the budget to 9. -/
theorem driver_step_spec_witness :
    initial_state.outputs.getD 0 none = none ∧
    create_circuit 1 initial_state c2tgt ttFull [] = .ok (some 8, c2syn) ∧
    num_gates c2syn < initial_state.max_gates ∧
    driver_step 1 c2tgt initial_state 0 = { initial_state with max_gates := num_gates c2syn } :=
  ⟨by decide, by decide, by decide,
    (driver_step_spec 1 c2tgt initial_state 0).2 8 c2syn (by decide) (by decide) (by decide)⟩

/-- Counterexample to C2 as stated: the synthesis of `c2tgt` from the fresh state
succeeds with a nine-gate state, yet the state the next output starts from still has
eight gates -- the synthesized state (with its output assignment) does not become the
next starting state. -/
theorem driver_step_discards_cex :
    num_gates c2syn = 9 ∧
    create_circuit 1 initial_state c2tgt ttFull [] = .ok (some 8, c2syn) ∧
    driver_step 1 c2tgt initial_state 0 ≠
      { c2syn with outputs := c2syn.outputs.set 0 (some 8) } ∧
    num_gates (driver_step 1 c2tgt initial_state 0) = 8 :=
  ⟨by decide, by decide, by decide, by decide⟩

/-- C3 (amended): between two successful multiplexer candidates, the one with the
strictly smaller gate count is selected; on equal gate counts the OR candidate is
selected (not the AND candidate as the specification claims). -/
theorem selectMux_spec (a b : Nat) (sA sO : state) :
    selectMux (some a) sA (some b) sO =
      if num_gates sA < num_gates sO then (some a, sA) else (some b, sO) := by
  unfold selectMux
  by_cases h : num_gates sA < num_gates sO
  · rw [if_pos h, if_pos (Or.inr ⟨by simp, h⟩)]
  · rw [if_neg h, if_neg (by simp [h])]

/-- Counterexample to C3 as stated: two successful candidates with equal gate counts;
the selection takes the OR candidate, not the AND candidate. -/
theorem selectMux_tie_cex :
    num_gates stTieA = num_gates stTieB ∧ stTieA ≠ stTieB ∧
    selectMux (some 0) stTieA (some 0) stTieB = (some 0, stTieB) :=
  ⟨by decide, by decide, by decide⟩

/-- C4 (amended): when phases 1-5 find nothing and six split bits are already in
use, the function does not return `NO_GATE`: the C `assert(bitp < 6)` fires and the
program aborts (modelled as the `AKind.inbits` error). -/
theorem bitp_six_aborts (fuel : Nat) (st : state) (target mask : TT)
    (inbits : List (Fin 8)) (hlen : 6 ≤ inbits.length)
    (h1 : phase1 st target mask = none) (h2 : phase2find st target mask = none)
    (h3 : phase3find st target mask = none) (h4 : phase4find st target mask = none)
    (h5 : phase5find st target mask = none) :
    create_circuit (fuel + 1) st target mask inbits = .error AKind.inbits := by
  simp only [create_circuit]
  unfold ccBody
  rw [h1]
  dsimp only []
  rw [h2]
  dsimp only []
  rw [h3]
  dsimp only []
  rw [h4]
  dsimp only []
  rw [h5]
  dsimp only []
  rw [if_pos (by omega : 6 ≤ min inbits.length 6)]

/-- Witness for C4's amended theorem: a one-gate state on which phases 1-5 fail,
called with six used bits, aborts on the `bitp` assert. -/
theorem bitp_six_aborts_witness :
    6 ≤ ([0, 1, 2, 3, 4, 5] : List (Fin 8)).length ∧
    phase1 stOne 3 3 = none ∧ phase2find stOne 3 3 = none ∧
    phase3find stOne 3 3 = none ∧ phase4find stOne 3 3 = none ∧
    phase5find stOne 3 3 = none ∧
    create_circuit 1 stOne 3 3 [0, 1, 2, 3, 4, 5] = .error AKind.inbits :=
  ⟨by decide, by decide, by decide, by decide, by decide, by decide,
    bitp_six_aborts 0 stOne 3 3 [0, 1, 2, 3, 4, 5] (by decide) (by decide) (by decide)
      (by decide) (by decide) (by decide)⟩

/-- Counterexample to C4 as stated: at a call where phases 1-5 find no match and six
bits are used, the result is the assert abort, not a `NO_GATE` return. -/
theorem bitp_six_cex :
    isNoneResult (create_circuit 8 stOne 3 3 [0, 1, 2, 3, 4, 5]) = false ∧
    create_circuit 8 stOne 3 3 [0, 1, 2, 3, 4, 5] = .error AKind.inbits :=
  ⟨by decide, by decide⟩

/-- C5: the `fd = NO_GATE` case of the OR-multiplexer is reachable; at this concrete
failing input the first OR-branch recursion returns `NO_GATE` (budget exhausted), so
the C code goes on to read the uninitialized `mux_out_or`.  The model evaluates the
`fd` sub-call of the outer call `create_circuit stOne 3 3 []` at split bit 0. -/
theorem or_branch_fd_none_demo :
    create_circuit 1 stOne (ttNot 3 &&& gtable stOne 0) (3 &&& gtable stOne 0) [0] =
      .ok (none, stOne) := by decide

/-- C6: when an existing gate already matches the target under the mask, the call
returns the smallest such index and the state (so `num_gates`) is unchanged. -/
theorem reuse_first_smallest (fuel : Nat) (st : state) (target mask : TT)
    (inbits : List (Fin 8)) (j : Nat) (hj : j < num_gates st)
    (hmatch : ttEqMask target (gtable st j) mask = true)
    (hleast : ∀ i, i < j → ttEqMask target (gtable st i) mask = false) :
    create_circuit (fuel + 1) st target mask inbits = .ok (some j, st) := by
  have hp1 := phase1_least hj hmatch hleast
  simp only [create_circuit]
  unfold ccBody
  rw [hp1]

/-- Witness for C6: in a two-gate state whose gate 1 matches the target, the call
returns index 1 with the state unchanged. -/
theorem reuse_first_smallest_witness :
    1 < num_gates stPair ∧ ttEqMask 2 (gtable stPair 1) 3 = true ∧
    (∀ i, i < 1 → ttEqMask 2 (gtable stPair i) 3 = false) ∧
    create_circuit 1 stPair 2 3 [] = .ok (some 1, stPair) :=
  ⟨by decide, by decide, by decide,
    reuse_first_smallest 0 stPair 2 3 [] 1 (by decide) (by decide) (by decide)⟩

/-- C7: for arguments satisfying the `add_gate` asserts (kind is not INPUT, present
inputs are valid indices) and the state invariant `num_gates ≤ max_gates`, the
function returns `NO_GATE` exactly when a required input is missing (`in1` always
required, `in2` required unless the kind is NOT) or the budget is full; otherwise it
appends one gate with the given fields and returns the new index, the previous
`num_gates`. -/
theorem add_gate_spec (st : state) (ty : gate_type) (tb : TT) (g1 g2 : Option Nat)
    (hty : ty ≠ gate_type.IN) (h1 : ∀ a, g1 = some a → a < num_gates st)
    (h2 : ∀ b, g2 = some b → b < num_gates st ∨ ty = gate_type.NOT)
    (hbud : num_gates st ≤ st.max_gates) :
    (add_gate st ty tb g1 g2 = .ok (none, st) ↔
      (g1 = none ∨ (g2 = none ∧ ty ≠ gate_type.NOT) ∨ num_gates st = st.max_gates)) ∧
    (g1 ≠ none → ¬(g2 = none ∧ ty ≠ gate_type.NOT) → num_gates st ≠ st.max_gates →
      add_gate st ty tb g1 g2 =
        .ok (some (num_gates st), { st with gates := st.gates ++ [⟨ty, tb, g1, g2⟩] })) := by
  unfold add_gate
  by_cases hA : g1 = none ∨ (g2 = none ∧ ty ≠ gate_type.NOT)
  · rw [if_pos hA]
    constructor
    · constructor
      · intro _
        rcases hA with h | h
        · exact Or.inl h
        · exact Or.inr (Or.inl h)
      · intro _
        rfl
    · intro hn1 hn2 _
      rcases hA with h | h
      · exact absurd h hn1
      · exact absurd h hn2
  · push_neg at hA
    obtain ⟨hg1, hg2⟩ := hA
    rw [if_neg (by
      push_neg
      exact ⟨hg1, hg2⟩)]
    have hassert : ty ≠ gate_type.IN ∧ g1.getD 0 < num_gates st ∧
        (g2.getD 0 < num_gates st ∨ ty = gate_type.NOT) := by
      refine ⟨hty, ?_, ?_⟩
      · cases g1 with
        | none => exact absurd rfl hg1
        | some a => exact h1 a rfl
      · cases g2 with
        | none =>
          right
          exact hg2 rfl
        | some b => exact h2 b rfl
    rw [if_neg (not_not_intro hassert)]
    by_cases hfull : st.max_gates ≤ num_gates st
    · rw [if_pos hfull]
      have heq : num_gates st = st.max_gates := by omega
      constructor
      · exact ⟨fun _ => Or.inr (Or.inr heq), fun _ => rfl⟩
      · intro _ _ hne
        exact absurd heq hne
    · rw [if_neg hfull]
      constructor
      · constructor
        · intro hcon
          simp at hcon
        · intro hd
          rcases hd with h | h | h
          · exact absurd h hg1
          · exact absurd (hg2 h.1) h.2
          · omega
      · intro _ _ _
        rfl

/-- Witness for C7: appending an XOR of gates 0 and 1 to the two-gate state. -/
theorem add_gate_spec_witness :
    gate_type.XOR ≠ gate_type.IN ∧ num_gates stPair ≤ stPair.max_gates ∧
    ((add_gate stPair gate_type.XOR 3 (some 0) (some 1) = .ok (none, stPair) ↔
      (some 0 = none ∨ ((some 1 : Option Nat) = none ∧ gate_type.XOR ≠ gate_type.NOT) ∨
        num_gates stPair = stPair.max_gates)) ∧
    ((some 0 : Option Nat) ≠ none →
      ¬((some 1 : Option Nat) = none ∧ gate_type.XOR ≠ gate_type.NOT) →
      num_gates stPair ≠ stPair.max_gates →
      add_gate stPair gate_type.XOR 3 (some 0) (some 1) =
        .ok (some (num_gates stPair),
          { stPair with gates :=
              stPair.gates ++ [⟨gate_type.XOR, 3, some 0, some 1⟩] }))) :=
  ⟨by decide, by decide,
    add_gate_spec stPair gate_type.XOR 3 (some 0) (some 1) (by decide)
      (fun a ha => by cases ha; decide) (fun b hb => by cases hb; exact Or.inl (by decide))
      (by decide)⟩

/-- C8: bit `i` of `generate_target b sbox` is `((sbox ? S[i] : i) >> b) & 1`, and in
a freshly initialized state gates 0..7 are the input leaves: bit `k` of
`gates[i].table` equals bit `i` of `k`. -/
theorem generate_target_spec :
    (∀ b, b < 8 → ∀ i, i < 256 →
      ((generate_target b true).testBit i = true ↔ (g_sbox_enc.getD i 0 >>> b) &&& 1 = 1)) ∧
    (∀ b, b < 8 → ∀ i, i < 256 →
      ((generate_target b false).testBit i = true ↔ (i >>> b) &&& 1 = 1)) ∧
    (∀ i, i < 8 → ∀ k, k < 256 →
      ((gtable initial_state i).testBit k = true ↔ Nat.testBit k i = true)) := by
  refine ⟨?_, ?_, ?_⟩ <;> decide

/-- Witness for C8 at a sample point. -/
theorem generate_target_spec_witness :
    3 < 8 ∧ 200 < 256 ∧
    ((generate_target 3 true).testBit 200 = true ↔ (g_sbox_enc.getD 200 0 >>> 3) &&& 1 = 1) :=
  ⟨by decide, by decide, generate_target_spec.1 3 (by decide) 200 (by decide)⟩

/-- C9 (amended): for each triple of existing gates, phase 5 tests exactly 21
three-gate compositions (of the 27 pairings of a two-element subset with two
operators, the three same-operator chains are tested once instead of three times). -/
theorem tripleCandidates_count (i k m : Nat) : (tripleCandidates i k m).length = 21 := rfl

/-- Counterexample to C9 as stated: the per-triple candidate list does not have 24
entries. -/
theorem tripleCandidates_not_24 : (tripleCandidates 0 1 2).length ≠ 24 := by decide

/-- C10: the initial state has exactly the eight input gates, and `create_circuit`
never shrinks a state, so every reachable state keeps `num_gates ≥ 8`; in particular a
candidate state of phase 6 can never collide with the `best.num_gates == 0`
sentinel. -/
theorem num_gates_ge_eight :
    num_gates initial_state = 8 ∧
    ∀ (fuel : Nat) (st : state) (target mask : TT) (inbits : List (Fin 8)) (r : Option Nat)
      (st₁ : state), 8 ≤ num_gates st → mask < 2 ^ 256 →
      create_circuit fuel st target mask inbits = .ok (r, st₁) →
      8 ≤ num_gates st₁ ∧ num_gates st₁ ≠ 0 := by
  refine ⟨by decide, ?_⟩
  intro fuel st target mask inbits r st₁ h8 hm hok
  have hg := create_circuit_good_all fuel st target mask inbits h8 hm
  rw [hok] at hg
  obtain ⟨hext, _⟩ := hg
  have hle := num_le_of_ext hext
  exact ⟨by omega, by omega⟩

/-- Witness for C10: the reuse call on the fresh state returns a state with eight
gates, safely distinct from the zero sentinel. -/
theorem num_gates_ge_eight_witness :
    8 ≤ num_gates initial_state ∧ ttFull < 2 ^ 256 ∧
    create_circuit 1 initial_state (gtable initial_state 5) ttFull [] =
      .ok (some 5, initial_state) ∧
    (8 ≤ num_gates initial_state ∧ num_gates initial_state ≠ 0) :=
  ⟨by decide, by decide, by decide,
    num_gates_ge_eight.2 1 initial_state (gtable initial_state 5) ttFull [] (some 5)
      initial_state (by decide) (by decide) (by decide)⟩

end Sboxgates
